import Mathlib

/-!
# Openbox action registry (`openbox/actions.c`)

A shallow embedding of `openbox/actions.c`.

* Heap objects (`ObActionsDefinition`, `ObActionsAct`) live in two partial
  maps from addresses to records; `none` is unallocated or freed memory.
* `registered` is the file-static `GSList` of definition pointers.
* Callbacks are external code.  A call is recorded in `State.trace`; the value
  a `setup` callback returns is read from an oracle.  Callbacks are taken not
  to re-enter this module.
* `guint` counters are naturals reduced modulo `2 ^ 32`.
* `actions_act_unref` is embedded through `actions_act_unref_call_state`, which
  also yields the state in which the free callback is entered, so that the
  order of the callback and the release of the definition can be stated.
* `Reachable` collects the states the exported functions lead to from the
  initial state; the file-static list `registered` is empty in all of them.
* Every operation returns an `Outcome`: a normal return, a fatal assertion, or
  undefined behaviour (an access through an invalid pointer or a call through
  a NULL function pointer).
-/

namespace Openbox

/-- Addresses of heap objects, functions and external handles. -/
abbrev Ptr := Nat

/-- Width of `guint`. -/
def GUINT_MOD : Nat := 4294967296

/-- Modelled from the spec: the enum `ObActionsType` is declared in `actions.h`,
which is not among the sources.  The spec names the two kinds GLOBAL and
CLIENT-TARGETED; `other raw` stands for any other value the C enum object can
hold. -/
inductive ObActionsType where
  | GLOBAL
  | CLIENT
  | other (raw : Nat)
  deriving DecidableEq, Repr

/-- The C struct `_ObActionsDefinition`.  Function pointers are `none` when NULL. -/
structure ObActionsDefinition where
  ref : Nat
  name : List Char
  type : ObActionsType
  setup : Option Ptr
  free : Option Ptr
  run : Option Ptr
  i_input : Option Ptr
  i_cancel : Option Ptr
  deriving DecidableEq, Repr

/-- The C struct `_ObActionsAct`.  `options` is a `gpointer`, `none` when NULL. -/
structure ObActionsAct where
  ref : Nat
  defn : Ptr
  options : Option Ptr
  deriving DecidableEq, Repr

/-- Modelled from the spec: `ObActionsData` is declared in `actions.h`, which is
not among the sources.  It carries the discriminant, the common fields and the
two client fields.  A client field is `none` while nothing has been written to
it (the record is a fresh stack object); `c` holds the possibly NULL client
pointer once written. -/
structure ObActionsData where
  type : ObActionsType
  uact : Nat
  time : Nat
  state : Nat
  x : Int
  y : Int
  context : Option Nat
  c : Option (Option Ptr)
  deriving DecidableEq, Repr

/-- Calls that leave the module. -/
inductive Event where
  | message (name : List Char)
  | setup (f : Ptr) (i : Ptr) (doc : Ptr) (children : Ptr)
  | free (f : Ptr) (options : Option Ptr)
  | run (f : Ptr) (data : ObActionsData) (options : Option Ptr)
  deriving DecidableEq, Repr

/-- Program state seen by `actions.c`. -/
structure State where
  defs : Ptr → Option ObActionsDefinition
  acts : Ptr → Option ObActionsAct
  registered : List Ptr
  nextDef : Ptr
  nextAct : Ptr
  trace : List Event

/-- Result of running an operation. -/
inductive Outcome (α : Type) where
  | ret (val : α) (s : State)
  | abort (s : State)
  | undef

/-- Sequencing of operations. -/
def Outcome.bind {α β : Type} (o : Outcome α) (k : α → State → Outcome β) : Outcome β :=
  match o with
  | Outcome.ret v s => k v s
  | Outcome.abort s => Outcome.abort s
  | Outcome.undef => Outcome.undef

/-- The state at program start: `registered = NULL`, nothing allocated. -/
def State.init : State :=
  { defs := fun _ => none, acts := fun _ => none, registered := [],
    nextDef := 0, nextAct := 0, trace := [] }

/-- The glib macro `TOLOWER` on one character. -/
def ascii_tolower (c : Char) : Char :=
  if 'A'.toNat ≤ c.toNat ∧ c.toNat ≤ 'Z'.toNat then Char.ofNat (c.toNat + 32) else c

/-- The glib function `g_ascii_strcasecmp` on NUL-free strings. -/
def g_ascii_strcasecmp : List Char → List Char → Int
  | [], [] => 0
  | [], c2 :: _ => 0 - (c2.toNat : Int)
  | c1 :: _, [] => (c1.toNat : Int)
  | c1 :: s1, c2 :: s2 =>
    if ascii_tolower c1 = ascii_tolower c2 then g_ascii_strcasecmp s1 s2
    else ((ascii_tolower c1).toNat : Int) - ((ascii_tolower c2).toNat : Int)

/-- The search loop of `actions_register` (lines 77-81): `true` when some
listed definition has the requested name. -/
def register_scan (defs : Ptr → Option ObActionsDefinition) (name : List Char) :
    List Ptr → Option Bool
  | [] => some false
  | p :: it =>
    match defs p with
    | none => none
    | some d =>
      if g_ascii_strcasecmp name d.name = 0 then some true
      else register_scan defs name it

/-- The C function `actions_startup`. -/
def actions_startup (reconfig : Bool) (s : State) : Outcome Unit :=
  if reconfig then Outcome.ret () s else Outcome.ret () s

/-- The C function `actions_definition_ref`. -/
def actions_definition_ref (p : Ptr) (s : State) : Outcome Unit :=
  match s.defs p with
  | none => Outcome.undef
  | some d =>
    Outcome.ret () { s with defs := Function.update s.defs p (some { d with ref := (d.ref + 1) % GUINT_MOD }) }

/-- The C function `actions_definition_unref`. -/
def actions_definition_unref (p : Option Ptr) (s : State) : Outcome Unit :=
  match p with
  | none => Outcome.ret () s
  | some q =>
    match s.defs q with
    | none => Outcome.undef
    | some d =>
      if (d.ref + GUINT_MOD - 1) % GUINT_MOD = 0 then
        Outcome.ret () { s with defs := Function.update s.defs q none }
      else
        Outcome.ret () { s with defs := Function.update s.defs q (some { d with ref := (d.ref + GUINT_MOD - 1) % GUINT_MOD }) }

/-- The loop of `actions_shutdown` (lines 60-63). -/
def shutdown_loop : List Ptr → State → Outcome Unit
  | [], s => Outcome.ret () { s with registered := [] }
  | p :: it, s =>
    (actions_definition_unref (some p) s).bind fun _ s1 =>
      shutdown_loop it { s1 with registered := it }

/-- The C function `actions_shutdown`. -/
def actions_shutdown (reconfig : Bool) (s : State) : Outcome Unit :=
  if reconfig then Outcome.ret () s else shutdown_loop s.registered s

/-- The C function `actions_register`.  The new definition is allocated and
filled in; nothing links it into `registered`. -/
def actions_register (name : List Char) (type : ObActionsType)
    (setup free run i_input i_cancel : Option Ptr) (s : State) : Outcome Bool :=
  match register_scan s.defs name s.registered with
  | none => Outcome.undef
  | some true => Outcome.ret false s
  | some false =>
    if i_input.isNone = i_cancel.isNone then
      Outcome.ret true
        { s with
          defs := Function.update s.defs s.nextDef
            (some { ref := 1, name := name, type := type, setup := setup, free := free,
                    run := run, i_input := i_input, i_cancel := i_cancel })
          nextDef := s.nextDef + 1 }
    else Outcome.abort s

/-- The search loop of `actions_parse_string` (lines 117-122).  The second
argument is the current content of the local `def`; the function returns its
content when the loop is left. -/
def parse_scan (defs : Ptr → Option ObActionsDefinition) (name : List Char) :
    List Ptr → Option Ptr → Option (Option Ptr)
  | [], cur => some cur
  | p :: it, _ =>
    match defs p with
    | none => none
    | some d =>
      if g_ascii_strcasecmp name d.name = 0 then some (some p)
      else parse_scan defs name it none

/-- The C function `actions_parse_string`.  The local `def` has no initialiser;
`junk` is the indeterminate value it holds on entry. -/
def actions_parse_string (junk : Option Ptr) (name : List Char) (s : State) :
    Outcome (Option Ptr) :=
  match parse_scan s.defs name s.registered junk with
  | none => Outcome.undef
  | some (some p) =>
    let s1 : State :=
      { s with
        acts := Function.update s.acts s.nextAct (some { ref := 1, defn := p, options := none })
        nextAct := s.nextAct + 1 }
    (actions_definition_ref p s1).bind fun _ s2 => Outcome.ret (some s.nextAct) s2
  | some none =>
    Outcome.ret none { s with trace := s.trace ++ [Event.message name] }

/-- Modelled from the spec: an XML node as far as `actions_parse` reads it.
`parse_attr_string` and the libxml2 node type are not among the sources; the
spec says the node has a required `name` attribute that may be missing, and
child nodes. -/
structure XmlNode where
  name_attr : Option (List Char)
  children : Ptr
  deriving DecidableEq, Repr

/-- Modelled from the spec: `parse_attr_string("name", node, &name)` is not among
the sources; it yields the attribute's value when the node has the attribute. -/
def parse_attr_string_name (node : XmlNode) : Option (List Char) :=
  node.name_attr

/-- The C function `actions_parse`.  `setup_ret f i doc children` is the value the
setup callback `f` returns for these arguments. -/
def actions_parse (setup_ret : Ptr → Ptr → Ptr → Ptr → Option Ptr) (junk : Option Ptr)
    (i doc : Ptr) (node : XmlNode) (s : State) : Outcome (Option Ptr) :=
  match parse_attr_string_name node with
  | some name =>
    (actions_parse_string junk name s).bind fun act s1 =>
      match act with
      | none => Outcome.ret none s1
      | some a =>
        match s1.acts a with
        | none => Outcome.undef
        | some r =>
          match s1.defs r.defn with
          | none => Outcome.undef
          | some d =>
            match d.setup with
            | none => Outcome.undef
            | some f =>
              Outcome.ret (some a)
                { s1 with
                  acts := Function.update s1.acts a
                    (some { r with options := setup_ret f i doc node.children })
                  trace := s1.trace ++ [Event.setup f i doc node.children] }
  | none => Outcome.ret none s

/-- The C function `actions_act_is_interactive`. -/
def actions_act_is_interactive (a : Ptr) (s : State) : Outcome Bool :=
  match s.acts a with
  | none => Outcome.undef
  | some r =>
    match s.defs r.defn with
    | none => Outcome.undef
    | some d => Outcome.ret d.i_cancel.isSome s

/-- The C function `actions_act_ref`. -/
def actions_act_ref (a : Ptr) (s : State) : Outcome Unit :=
  match s.acts a with
  | none => Outcome.undef
  | some r =>
    Outcome.ret () { s with acts := Function.update s.acts a (some { r with ref := (r.ref + 1) % GUINT_MOD }) }

/-- The C function `actions_act_unref` (lines 166-175), statement by statement.
Besides the outcome it returns the program state in which the free callback is
entered: `none` when the callback is not called, otherwise the state right
after line 170, before `actions_definition_unref` (line 172) runs. -/
def actions_act_unref_call_state (a : Option Ptr) (s : State) : Outcome (Option State) :=
  match a with
  | none => Outcome.ret none s
  | some p =>
    match s.acts p with
    | none => Outcome.undef
    | some r =>
      if (r.ref + GUINT_MOD - 1) % GUINT_MOD = 0 then
        match s.defs r.defn with
        | none => Outcome.undef
        | some d =>
          match d.free with
          | none => Outcome.undef
          | some f =>
            (actions_definition_unref (some r.defn)
                { s with
                  acts := Function.update s.acts p (some { r with ref := 0 })
                  trace := s.trace ++ [Event.free f r.options] }).bind fun _ s2 =>
              Outcome.ret
                (some { s with
                        acts := Function.update s.acts p (some { r with ref := 0 })
                        trace := s.trace ++ [Event.free f r.options] })
                { s2 with acts := Function.update s2.acts p none }
      else
        Outcome.ret none { s with acts := Function.update s.acts p (some { r with ref := (r.ref + GUINT_MOD - 1) % GUINT_MOD }) }

/-- The C function `actions_act_unref`. -/
def actions_act_unref (a : Option Ptr) (s : State) : Outcome Unit :=
  (actions_act_unref_call_state a s).bind fun _ s1 => Outcome.ret () s1

/-- The C function `actions_setup_data`: writes the five common fields. -/
def actions_setup_data (data : ObActionsData) (uact time state : Nat) (x y : Int) :
    ObActionsData :=
  { data with uact := uact, time := time, state := state, x := x, y := y }

/-- A fresh `ObActionsData` on the stack after `data.type = type`: only the
discriminant is written.  The numeric fields hold `0` as a placeholder until
`actions_setup_data` overwrites them. -/
def fresh_data (type : ObActionsType) : ObActionsData :=
  { type := type, uact := 0, time := 0, state := 0, x := 0, y := 0, context := none, c := none }

/-- One iteration of the loop of `actions_run_acts` (lines 203-220). -/
def run_act (a : Ptr) (uact time state : Nat) (x y : Int) (con : Nat)
    (client : Option Ptr) (s : State) : Outcome Unit :=
  match s.acts a with
  | none => Outcome.undef
  | some r =>
    match s.defs r.defn with
    | none => Outcome.undef
    | some d =>
      let data := actions_setup_data (fresh_data d.type) uact time state x y
      let filled : Option ObActionsData :=
        match data.type with
        | ObActionsType.GLOBAL => some data
        | ObActionsType.CLIENT => some { data with context := some con, c := some client }
        | ObActionsType.other _ => none
      match filled with
      | none => Outcome.abort s
      | some data1 =>
        match d.run with
        | none => Outcome.undef
        | some f => Outcome.ret () { s with trace := s.trace ++ [Event.run f data1 r.options] }

/-- The C function `actions_run_acts`. -/
def actions_run_acts (acts : List Ptr) (uact time state : Nat) (x y : Int) (con : Nat)
    (client : Option Ptr) (s : State) : Outcome Unit :=
  match acts with
  | [] => Outcome.ret () s
  | a :: it =>
    (run_act a uact time state x y con client s).bind fun _ s1 =>
      actions_run_acts it uact time state x y con client s1

/-- Repeated `actions_act_ref` on one instance. -/
def act_ref_times (n : Nat) (a : Ptr) (s : State) : Outcome Unit :=
  match n with
  | 0 => Outcome.ret () s
  | n + 1 => (actions_act_ref a s).bind fun _ s1 => act_ref_times n a s1

/-- Repeated `actions_act_unref` on one instance. -/
def act_unref_times (n : Nat) (a : Ptr) (s : State) : Outcome Unit :=
  match n with
  | 0 => Outcome.ret () s
  | n + 1 => (actions_act_unref (some a) s).bind fun _ s1 => act_unref_times n a s1

/-- Every registered pointer addresses a live definition. -/
def RegistryLive (s : State) : Prop :=
  ∀ p ∈ s.registered, ∃ d, s.defs p = some d

/-- Some registered definition carries `name` up to ASCII case. -/
def NameRegistered (s : State) (name : List Char) : Prop :=
  ∃ p ∈ s.registered, ∃ d, s.defs p = some d ∧ g_ascii_strcasecmp name d.name = 0

/-- A sample definition named `a`. -/
def def_a : ObActionsDefinition :=
  { ref := 1, name := ['a'], type := ObActionsType.CLIENT, setup := some 10, free := some 11,
    run := some 12, i_input := none, i_cancel := none }

/-- A state whose registry holds `def_a` at address `0`. -/
def state_one : State :=
  { defs := fun p => if p = 0 then some def_a else none, acts := fun _ => none,
    registered := [0], nextDef := 1, nextAct := 0, trace := [] }

/-- The state after `def_a` has been registered from the initial state: the
definition sits at address `0` and `registered` is still empty. -/
def state_leaked : State :=
  { State.init with defs := Function.update State.init.defs 0 (some def_a), nextDef := 1 }

/-- A node `<action name="A"/>` whose children sit at address `30`. -/
def node_A : XmlNode := { name_attr := some ['A'], children := 30 }

/-- A node without a `name` attribute. -/
def node_anonymous : XmlNode := { name_attr := none, children := 30 }

/-- A setup callback result: every call returns address `40`. -/
def setup_const : Ptr → Ptr → Ptr → Ptr → Option Ptr := fun _ _ _ _ => some 40

/-- A state with one instance at address `0`, reference count 1, options at
address `40`, bound to the registered definition `a`, which has two references. -/
def state_bound : State :=
  { defs := fun p => if p = 0 then some { def_a with ref := 2 } else none
    acts := fun p => if p = 0 then some { ref := 1, defn := 0, options := some 40 } else none
    registered := [0], nextDef := 1, nextAct := 1, trace := [] }

/-- A sample GLOBAL definition named `g`. -/
def def_g : ObActionsDefinition :=
  { ref := 3, name := ['g'], type := ObActionsType.GLOBAL, setup := some 13, free := some 14,
    run := some 15, i_input := none, i_cancel := none }

/-- A state with the CLIENT definition `a` at address `0`, the GLOBAL definition
`g` at address `1`, and three instances: `0` and `2` bound to `g`, `1` bound to `a`. -/
def state_mixed : State :=
  { defs := fun p => if p = 0 then some { def_a with ref := 2 } else if p = 1 then some def_g else none
    acts := fun p =>
      if p = 0 then some { ref := 1, defn := 1, options := some 41 }
      else if p = 1 then some { ref := 1, defn := 0, options := none }
      else if p = 2 then some { ref := 1, defn := 1, options := some 42 }
      else none
    registered := [1, 0], nextDef := 2, nextAct := 3, trace := [] }

/-- The record a GLOBAL instance receives for the sample call. -/
def data_global : ObActionsData :=
  { type := ObActionsType.GLOBAL, uact := 5, time := 6, state := 7, x := 8, y := -9,
    context := none, c := none }

/-- The record a CLIENT instance receives for the sample call. -/
def data_client : ObActionsData :=
  { type := ObActionsType.CLIENT, uact := 5, time := 6, state := 7, x := 8, y := -9,
    context := some 3, c := some (some 50) }

/-- The state `state_mixed` after the sample call has run the instances `0, 1, 2`. -/
def state_mixed_after : State :=
  { state_mixed with
    trace := [Event.run 15 data_global (some 41), Event.run 12 data_client none,
              Event.run 15 data_global (some 42)] }

/-- A state holding an interactive definition `i` at address `0` with two
references and one instance bound to it. -/
def state_interactive : State :=
  { defs := fun p =>
      if p = 0 then
        some { ref := 2, name := ['i'], type := ObActionsType.CLIENT, setup := some 10,
               free := some 11, run := some 12, i_input := some 4, i_cancel := some 5 }
      else none
    acts := fun p => if p = 0 then some { ref := 1, defn := 0, options := none } else none
    registered := [], nextDef := 1, nextAct := 1, trace := [] }

/-- States the program can be in: the initial state and every state a call of
an exported function returns from a reachable state. -/
inductive Reachable : State → Prop where
  | init : Reachable State.init
  | startup (s s1 : State) (reconfig : Bool) :
      Reachable s → actions_startup reconfig s = Outcome.ret () s1 → Reachable s1
  | shutdown (s s1 : State) (reconfig : Bool) :
      Reachable s → actions_shutdown reconfig s = Outcome.ret () s1 → Reachable s1
  | register (s s1 : State) (name : List Char) (type : ObActionsType)
      (setup free run i_input i_cancel : Option Ptr) (b : Bool) :
      Reachable s →
      actions_register name type setup free run i_input i_cancel s = Outcome.ret b s1 →
      Reachable s1
  | parse_string (s s1 : State) (junk : Option Ptr) (name : List Char) (a : Option Ptr) :
      Reachable s → actions_parse_string junk name s = Outcome.ret a s1 → Reachable s1
  | parse (s s1 : State) (setup_ret : Ptr → Ptr → Ptr → Ptr → Option Ptr) (junk : Option Ptr)
      (i doc : Ptr) (node : XmlNode) (a : Option Ptr) :
      Reachable s → actions_parse setup_ret junk i doc node s = Outcome.ret a s1 → Reachable s1
  | act_ref (s s1 : State) (a : Ptr) :
      Reachable s → actions_act_ref a s = Outcome.ret () s1 → Reachable s1
  | act_unref (s s1 : State) (a : Option Ptr) :
      Reachable s → actions_act_unref a s = Outcome.ret () s1 → Reachable s1

/-- Number of live instances bound to the definition at `p`; instances are
allocated at the addresses below `nextAct`. -/
def live_instances (s : State) (p : Ptr) : Nat :=
  ((List.range s.nextAct).filter fun a =>
    match s.acts a with
    | some r => r.defn == p
    | none => false).length

/-- One when the registry holds the definition at `p`, zero otherwise. -/
def registry_share (s : State) (p : Ptr) : Nat :=
  if p ∈ s.registered then 1 else 0

/-- The counting rule for definitions: the reference count of every live
definition is the number of live instances bound to it, plus one when the
registry holds it. -/
def RefcountInvariant (s : State) : Prop :=
  ∀ p d, s.defs p = some d → d.ref = live_instances s p + registry_share s p

/-- The record a CLIENT instance receives for the sample call made with frame
context `4` and a NULL client. -/
def data_client_alt : ObActionsData :=
  { type := ObActionsType.CLIENT, uact := 5, time := 6, state := 7, x := 8, y := -9,
    context := some 4, c := some none }

/-- The state `state_mixed` after the sample call made with frame context `4` and
a NULL client has run the instances `0, 1, 2`. -/
def state_mixed_after_alt : State :=
  { state_mixed with
    trace := [Event.run 15 data_global (some 41), Event.run 12 data_client_alt none,
              Event.run 15 data_global (some 42)] }

/-- A definition whose type field holds a value outside the enum. -/
def def_x : ObActionsDefinition :=
  { ref := 2, name := ['x'], type := ObActionsType.other 7, setup := some 16, free := some 17,
    run := some 18, i_input := none, i_cancel := none }

/-- A state with the CLIENT definition `a` at address `0`, the ill-typed
definition `x` at address `1`, and three instances: `0` and `2` bound to `a`,
`1` bound to `x`. -/
def state_bad : State :=
  { defs := fun p => if p = 0 then some { def_a with ref := 3 } else if p = 1 then some def_x else none
    acts := fun p =>
      if p = 0 then some { ref := 1, defn := 0, options := some 41 }
      else if p = 1 then some { ref := 1, defn := 1, options := none }
      else if p = 2 then some { ref := 1, defn := 0, options := some 42 }
      else none
    registered := [1, 0], nextDef := 2, nextAct := 3, trace := [] }

/-- The state after `<action name="A"/>` was parsed in `state_leaked` while the
local `def` of the lookup held the address of the leaked definition: one
instance at address `0` with the options the setup callback returned. -/
def state_parsed : State :=
  { defs := Function.update state_leaked.defs 0 (some { def_a with ref := 2 })
    acts := Function.update state_leaked.acts 0 (some { ref := 1, defn := 0, options := some 40 })
    registered := [], nextDef := 1, nextAct := 1, trace := [Event.setup 10 1 2 30] }

/-- The state after `A` was looked up by name alone in `state_leaked`, again with
the local `def` holding the address of the leaked definition. -/
def state_looked_up : State :=
  { defs := Function.update state_leaked.defs 0 (some { def_a with ref := 2 })
    acts := Function.update state_leaked.acts 0 (some { ref := 1, defn := 0, options := none })
    registered := [], nextDef := 1, nextAct := 1, trace := [] }

end Openbox

namespace Openbox

/-! ## Search loops -/

theorem register_scan_of_registered (defs : Ptr → Option ObActionsDefinition)
    (name : List Char) (l : List Ptr)
    (hlive : ∀ p ∈ l, ∃ d, defs p = some d)
    (hdup : ∃ p ∈ l, ∃ d, defs p = some d ∧ g_ascii_strcasecmp name d.name = 0) :
    register_scan defs name l = some true := by
  induction l with
  | nil =>
    obtain ⟨p, hp, _⟩ := hdup
    cases hp
  | cons q it ih =>
    obtain ⟨dq, hdq⟩ := hlive q (List.mem_cons_self q it)
    by_cases hq : g_ascii_strcasecmp name dq.name = 0
    · simp [register_scan, hdq, hq]
    · simp only [register_scan, hdq, hq, if_false]
      apply ih
      · intro p hp
        exact hlive p (List.mem_cons_of_mem q hp)
      · obtain ⟨p, hp, d, hd, hm⟩ := hdup
        rcases List.mem_cons.mp hp with h | h
        · subst h
          rw [hdq] at hd
          cases hd
          exact absurd hm hq
        · exact ⟨p, h, d, hd, hm⟩

theorem register_scan_of_not_registered (defs : Ptr → Option ObActionsDefinition)
    (name : List Char) (l : List Ptr)
    (hlive : ∀ p ∈ l, ∃ d, defs p = some d)
    (hno : ¬ ∃ p ∈ l, ∃ d, defs p = some d ∧ g_ascii_strcasecmp name d.name = 0) :
    register_scan defs name l = some false := by
  induction l with
  | nil => rfl
  | cons q it ih =>
    obtain ⟨dq, hdq⟩ := hlive q (List.mem_cons_self q it)
    have hq : ¬ g_ascii_strcasecmp name dq.name = 0 := fun h =>
      hno ⟨q, List.mem_cons_self q it, dq, hdq, h⟩
    simp only [register_scan, hdq, hq, if_false]
    apply ih
    · intro p hp
      exact hlive p (List.mem_cons_of_mem q hp)
    · rintro ⟨p, hp, d, hd, hm⟩
      exact hno ⟨p, List.mem_cons_of_mem q hp, d, hd, hm⟩

theorem parse_scan_first_match (defs : Ptr → Option ObActionsDefinition)
    (name : List Char) (pre post : List Ptr) (p : Ptr) (d : ObActionsDefinition)
    (cur : Option Ptr)
    (hpre : ∀ q ∈ pre, ∃ dq, defs q = some dq ∧ g_ascii_strcasecmp name dq.name ≠ 0)
    (hp : defs p = some d) (hname : g_ascii_strcasecmp name d.name = 0) :
    parse_scan defs name (pre ++ p :: post) cur = some (some p) := by
  induction pre generalizing cur with
  | nil => simp [parse_scan, hp, hname]
  | cons q it ih =>
    obtain ⟨dq, hdq, hq⟩ := hpre q (List.mem_cons_self q it)
    simp only [List.cons_append, parse_scan, hdq, hq, if_false]
    exact ih none fun r hr => hpre r (List.mem_cons_of_mem q hr)

theorem parse_scan_no_match (defs : Ptr → Option ObActionsDefinition)
    (name : List Char) (q : Ptr) (it : List Ptr) (cur : Option Ptr)
    (hlive : ∀ p ∈ q :: it, ∃ d, defs p = some d)
    (hno : ¬ ∃ p ∈ q :: it, ∃ d, defs p = some d ∧ g_ascii_strcasecmp name d.name = 0) :
    parse_scan defs name (q :: it) cur = some none := by
  induction it generalizing q cur with
  | nil =>
    obtain ⟨dq, hdq⟩ := hlive q (List.mem_cons_self q [])
    have hq : ¬ g_ascii_strcasecmp name dq.name = 0 := fun h =>
      hno ⟨q, List.mem_cons_self q [], dq, hdq, h⟩
    simp [parse_scan, hdq, hq]
  | cons r rest ih =>
    obtain ⟨dq, hdq⟩ := hlive q (List.mem_cons_self q _)
    have hq : ¬ g_ascii_strcasecmp name dq.name = 0 := fun h =>
      hno ⟨q, List.mem_cons_self q _, dq, hdq, h⟩
    rw [parse_scan]
    simp only [hdq, hq, if_false]
    apply ih
    · intro p hp
      exact hlive p (List.mem_cons_of_mem q hp)
    · rintro ⟨p, hp, d, hd, hm⟩
      exact hno ⟨p, List.mem_cons_of_mem q hp, d, hd, hm⟩

/-- On a non-empty registry of live definitions none of which has the name,
`actions_parse_string` returns NULL, emits the diagnostic and changes nothing
else, whatever the local `def` held on entry. -/
theorem actions_parse_string_no_match (junk : Option Ptr) (name : List Char) (s : State)
    (hne : s.registered ≠ []) (hlive : RegistryLive s) (hno : ¬ NameRegistered s name) :
    actions_parse_string junk name s
      = Outcome.ret none { s with trace := s.trace ++ [Event.message name] } := by
  unfold actions_parse_string
  cases hreg : s.registered with
  | nil => exact absurd hreg hne
  | cons q it =>
    have h := parse_scan_no_match s.defs name q it junk
      (by rw [← hreg]; exact hlive) (by rw [← hreg]; exact hno)
    simp [h]

/-! ## Registration -/

/-- The state `actions_register` leaves when it returns TRUE. -/
theorem actions_register_fresh (name : List Char) (type : ObActionsType)
    (setup free run i_input i_cancel : Option Ptr) (s : State)
    (hempty : s.registered = []) (hic : i_input.isNone = i_cancel.isNone) :
    actions_register name type setup free run i_input i_cancel s
      = Outcome.ret true
          { s with
            defs := Function.update s.defs s.nextDef
              (some { ref := 1, name := name, type := type, setup := setup, free := free,
                      run := run, i_input := i_input, i_cancel := i_cancel })
            nextDef := s.nextDef + 1 } := by
  unfold actions_register
  rw [hempty]
  simp only [register_scan, hic, if_true]

theorem actions_register_duplicate (name : List Char) (type : ObActionsType)
    (setup free run i_input i_cancel : Option Ptr) (s : State)
    (hlive : RegistryLive s) (hdup : NameRegistered s name) :
    actions_register name type setup free run i_input i_cancel s = Outcome.ret false s := by
  unfold actions_register
  rw [register_scan_of_registered s.defs name s.registered hlive hdup]

/-- Claim C1 (the code departs from it).  Starting from the empty registry, a
registration that passes the assertion returns TRUE and leaves `registered`
empty, so a second registration under a name equal up to ASCII case also
returns TRUE instead of FALSE, and `actions_parse_string` for the first name
(with the local `def` reading as NULL) then returns no instance and emits the
invalid-action diagnostic. -/
theorem C1_second_registration_accepted (n1 n2 : List Char) (t1 t2 : ObActionsType)
    (setup1 free1 run1 in1 cancel1 setup2 free2 run2 in2 cancel2 : Option Ptr)
    (h1 : in1.isNone = cancel1.isNone) (h2 : in2.isNone = cancel2.isNone) :
    ∃ s1 s2,
      actions_register n1 t1 setup1 free1 run1 in1 cancel1 State.init = Outcome.ret true s1 ∧
      s1.registered = [] ∧
      actions_register n2 t2 setup2 free2 run2 in2 cancel2 s1 = Outcome.ret true s2 ∧
      s2.registered = [] ∧
      actions_parse_string none n1 s2
        = Outcome.ret none { s2 with trace := s2.trace ++ [Event.message n1] } :=
  ⟨_, _, actions_register_fresh n1 t1 setup1 free1 run1 in1 cancel1 State.init rfl h1, rfl,
    actions_register_fresh n2 t2 setup2 free2 run2 in2 cancel2 _ rfl h2, rfl, rfl⟩

/-- At the names `a` and `A` the second registration is accepted. -/
theorem C1_second_registration_accepted_witness :
    (none : Option Ptr).isNone = (none : Option Ptr).isNone ∧
    g_ascii_strcasecmp ['a'] ['A'] = 0 ∧
    ∃ s1 s2,
      actions_register ['a'] ObActionsType.GLOBAL (some 10) (some 11) (some 12) none none
        State.init = Outcome.ret true s1 ∧
      s1.registered = [] ∧
      actions_register ['A'] ObActionsType.CLIENT (some 20) (some 21) (some 22) none none s1
        = Outcome.ret true s2 ∧
      s2.registered = [] ∧
      actions_parse_string none ['a'] s2
        = Outcome.ret none { s2 with trace := s2.trace ++ [Event.message ['a']] } :=
  ⟨rfl, by decide,
    C1_second_registration_accepted ['a'] ['A'] ObActionsType.GLOBAL ObActionsType.CLIENT
      (some 10) (some 11) (some 12) none none (some 20) (some 21) (some 22) none none rfl rfl⟩

/-! ## Parsing -/

/-- Claim C4 (the code departs from it at the empty registry).  After one
registration from the initial state the registry is still empty, so the loop of
`actions_parse_string` never assigns the local `def`, which has no initialiser.
When that local happens to hold the address of the leaked definition, the call
for the unregistered name `x` returns an instance bound to it and emits no
diagnostic. -/
theorem C4_empty_registry_uninitialised_def :
    actions_register ['a'] ObActionsType.CLIENT (some 10) (some 11) (some 12) none none
      State.init = Outcome.ret true state_leaked ∧
    state_leaked.registered = [] ∧
    ¬ NameRegistered state_leaked ['x'] ∧
    ∃ s2, actions_parse_string (some 0) ['x'] state_leaked = Outcome.ret (some 0) s2 ∧
      s2.acts 0 = some { ref := 1, defn := 0, options := none } ∧
      s2.trace = [] ∧
      s2.defs 0 = some { def_a with ref := 2 } :=
  ⟨rfl, rfl, (fun h => by obtain ⟨_, hp, _⟩ := h; cases hp), ⟨_, rfl, rfl, rfl, rfl⟩⟩

/-- Claim C6.  On a node without a `name` attribute `actions_parse` returns NULL
and the whole program state is unchanged: no setup callback and no diagnostic
is added to the trace, and the registry, its definitions and their reference
counts are as before. -/
theorem C6_parse_without_name (setup_ret : Ptr → Ptr → Ptr → Ptr → Option Ptr)
    (junk : Option Ptr) (i doc : Ptr) (node : XmlNode) (s : State)
    (hnode : node.name_attr = none) :
    actions_parse setup_ret junk i doc node s = Outcome.ret none s := by
  simp [actions_parse, parse_attr_string_name, hnode]

/-- Parsing a node without a name over a registry that holds `a`. -/
theorem C6_parse_without_name_witness :
    node_anonymous.name_attr = none ∧
    actions_parse setup_const none 1 2 node_anonymous state_one = Outcome.ret none state_one :=
  ⟨rfl, C6_parse_without_name setup_const none 1 2 node_anonymous state_one rfl⟩

/-! ## Reference counting of instances -/

theorem act_ref_times_eq (a : Ptr) (n : Nat) (s : State) (r : ObActionsAct)
    (hact : s.acts a = some r) (hlt : r.ref < GUINT_MOD) :
    act_ref_times n a s
      = Outcome.ret ()
          { s with acts := Function.update s.acts a (some { r with ref := (r.ref + n) % GUINT_MOD }) } := by
  induction n generalizing s r with
  | zero =>
    have hr : ({ r with ref := (r.ref + 0) % GUINT_MOD } : ObActionsAct) = r := by
      rw [Nat.add_zero, Nat.mod_eq_of_lt hlt]
    rw [hr, ← hact, Function.update_eq_self]
    rfl
  | succ n ih =>
    have hmod : 0 < GUINT_MOD := by unfold GUINT_MOD; omega
    have hstep : actions_act_ref a s
        = Outcome.ret ()
            { s with acts := Function.update s.acts a (some { r with ref := (r.ref + 1) % GUINT_MOD }) } := by
      simp only [actions_act_ref, hact]
    have hnext := ih
      { s with acts := Function.update s.acts a (some { r with ref := (r.ref + 1) % GUINT_MOD }) }
      { r with ref := (r.ref + 1) % GUINT_MOD } (Function.update_same a _ s.acts)
      (Nat.mod_lt _ hmod)
    rw [act_ref_times, hstep]
    simp only [Outcome.bind]
    rw [hnext]
    simp only [Function.update_idem]
    have harith : ((r.ref + 1) % GUINT_MOD + n) % GUINT_MOD = (r.ref + (n + 1)) % GUINT_MOD := by
      rw [Nat.add_mod, Nat.mod_mod, ← Nat.add_mod]
      congr 1
      omega
    rw [harith]

theorem act_unref_times_below (a : Ptr) (k : Nat) (s : State) (r : ObActionsAct) (N : Nat)
    (hact : s.acts a = some r) (href : r.ref = N % GUINT_MOD) (hmax : N ≤ GUINT_MOD)
    (hk : k < N) :
    act_unref_times k a s
      = Outcome.ret ()
          { s with acts := Function.update s.acts a (some { r with ref := (N - k) % GUINT_MOD }) } := by
  induction k generalizing s r N with
  | zero =>
    have hr : ({ r with ref := (N - 0) % GUINT_MOD } : ObActionsAct) = r := by
      rw [Nat.sub_zero, ← href]
    rw [hr, ← hact, Function.update_eq_self]
    rfl
  | succ k ih =>
    have hdec : (r.ref + GUINT_MOD - 1) % GUINT_MOD = (N - 1) % GUINT_MOD := by
      rw [href]
      unfold GUINT_MOD at *
      omega
    have hnz : ¬ (N - 1) % GUINT_MOD = 0 := by
      unfold GUINT_MOD at *
      omega
    have hstep : actions_act_unref (some a) s
        = Outcome.ret () { s with acts := Function.update s.acts a (some { r with ref := (N - 1) % GUINT_MOD }) } := by
      simp only [actions_act_unref, actions_act_unref_call_state, hact, hdec, hnz, if_false,
        Outcome.bind]
    have hle : N - 1 ≤ GUINT_MOD := Nat.le_trans (Nat.sub_le N 1) hmax
    have hlt : k < N - 1 := by omega
    have hnext := ih { s with acts := Function.update s.acts a (some { r with ref := (N - 1) % GUINT_MOD }) }
      { r with ref := (N - 1) % GUINT_MOD } (N - 1) (Function.update_same a _ s.acts) rfl hle hlt
    rw [act_unref_times, hstep]
    simp only [Outcome.bind]
    rw [hnext]
    simp only [Function.update_idem]
    have harith : N - 1 - k = N - (k + 1) := by omega
    rw [harith]

theorem actions_definition_unref_live (q : Ptr) (s : State) (d : ObActionsDefinition)
    (hdef : s.defs q = some d) :
    actions_definition_unref (some q) s
      = Outcome.ret ()
          { s with
            defs := Function.update s.defs q
              (if (d.ref + GUINT_MOD - 1) % GUINT_MOD = 0 then none
               else some { d with ref := (d.ref + GUINT_MOD - 1) % GUINT_MOD }) } := by
  unfold actions_definition_unref
  simp only [hdef]
  by_cases hz : (d.ref + GUINT_MOD - 1) % GUINT_MOD = 0
  · rw [if_pos hz, if_pos hz]
  · rw [if_neg hz, if_neg hz]

theorem actions_act_unref_last (a : Ptr) (s : State) (r : ObActionsAct)
    (d : ObActionsDefinition) (f : Ptr)
    (hact : s.acts a = some r) (hdec : (r.ref + GUINT_MOD - 1) % GUINT_MOD = 0)
    (hdef : s.defs r.defn = some d) (hfree : d.free = some f) :
    actions_act_unref (some a) s
      = Outcome.ret ()
          { s with
            acts := Function.update s.acts a none
            defs := Function.update s.defs r.defn
              (if (d.ref + GUINT_MOD - 1) % GUINT_MOD = 0 then none
               else some { d with ref := (d.ref + GUINT_MOD - 1) % GUINT_MOD })
            trace := s.trace ++ [Event.free f r.options] } := by
  have hunref := actions_definition_unref_live r.defn
    { s with
      acts := Function.update s.acts a (some { r with ref := 0 })
      trace := s.trace ++ [Event.free f r.options] } d hdef
  unfold actions_act_unref actions_act_unref_call_state
  simp only [hact, hdec, if_true, hdef, hfree, hunref, Outcome.bind, Function.update_idem]

theorem act_unref_times_last (a : Ptr) (n : Nat) (s : State) (r : ObActionsAct)
    (d : ObActionsDefinition) (f : Ptr)
    (hact : s.acts a = some r) (href : r.ref = (n + 1) % GUINT_MOD) (hmax : n + 1 ≤ GUINT_MOD)
    (hdef : s.defs r.defn = some d) (hfree : d.free = some f) :
    act_unref_times (n + 1) a s
      = Outcome.ret ()
          { s with
            acts := Function.update s.acts a none
            defs := Function.update s.defs r.defn
              (if (d.ref + GUINT_MOD - 1) % GUINT_MOD = 0 then none
               else some { d with ref := (d.ref + GUINT_MOD - 1) % GUINT_MOD })
            trace := s.trace ++ [Event.free f r.options] } := by
  induction n generalizing s r with
  | zero =>
    have hdec : (r.ref + GUINT_MOD - 1) % GUINT_MOD = 0 := by
      rw [href]
      unfold GUINT_MOD
      omega
    rw [act_unref_times, actions_act_unref_last a s r d f hact hdec hdef hfree]
    simp only [Outcome.bind, act_unref_times]
  | succ n ih =>
    have hdec : (r.ref + GUINT_MOD - 1) % GUINT_MOD = (n + 1) % GUINT_MOD := by
      rw [href]
      unfold GUINT_MOD at *
      omega
    have hnz : ¬ (n + 1) % GUINT_MOD = 0 := by
      unfold GUINT_MOD at *
      omega
    have hstep : actions_act_unref (some a) s
        = Outcome.ret ()
            { s with acts := Function.update s.acts a (some { r with ref := (n + 1) % GUINT_MOD }) } := by
      simp only [actions_act_unref, actions_act_unref_call_state, hact, hdec, hnz, if_false,
        Outcome.bind]
    have hle : n + 1 ≤ GUINT_MOD := Nat.le_of_succ_le hmax
    have hnext := ih
      { s with acts := Function.update s.acts a (some { r with ref := (n + 1) % GUINT_MOD }) }
      { r with ref := (n + 1) % GUINT_MOD } (Function.update_same a _ s.acts) rfl hle hdef
    rw [act_unref_times, hstep]
    simp only [Outcome.bind]
    rw [hnext]
    simp only [Function.update_idem]

/-- Claim C7 as stated fails for counts beyond the range of `guint`: with
`N = 2 ^ 32 + 1`, the `N - 1` calls of `actions_act_ref` wrap the counter back
to 1, and the first `actions_act_unref` (`k = 1 < N`) already invokes the free
callback and destroys the instance. -/
theorem C7_wraparound_frees_early :
    1 < 2 ^ 32 + 1 ∧
    ∃ s1, (act_ref_times (2 ^ 32 + 1 - 1) 0 state_bound).bind
        (fun _ s0 => act_unref_times 1 0 s0) = Outcome.ret () s1 ∧
      s1.trace = [Event.free 11 (some 40)] ∧ s1.acts 0 = none := by
  refine ⟨by norm_num, ?_⟩
  have href : act_ref_times (2 ^ 32 + 1 - 1) 0 state_bound
      = Outcome.ret ()
          { state_bound with
            acts := Function.update state_bound.acts 0
              (some { ref := 1, defn := 0, options := some 40 }) } := by
    rw [act_ref_times_eq 0 (2 ^ 32 + 1 - 1) state_bound { ref := 1, defn := 0, options := some 40 }
      rfl (by unfold GUINT_MOD; norm_num)]
    have hm : (1 + (2 ^ 32 + 1 - 1)) % GUINT_MOD = 1 := by
      unfold GUINT_MOD
      norm_num
    simp only [hm]
  rw [href]
  have hlast := act_unref_times_last 0 0
    { state_bound with
      acts := Function.update state_bound.acts 0
        (some { ref := 1, defn := 0, options := some 40 }) }
    { ref := 1, defn := 0, options := some 40 } { def_a with ref := 2 } 11
    (Function.update_same 0 _ state_bound.acts) (by unfold GUINT_MOD; norm_num)
    (by unfold GUINT_MOD; norm_num) rfl rfl
  simp only [Outcome.bind]
  refine ⟨_, hlast, rfl, ?_⟩
  simp only [Function.update_same]

/-- Claim C7, amended to counts a `guint` can hold.  Take an instance with
reference count 1 bound to a live definition with a non-NULL free callback, and
`1 ≤ N ≤ 2 ^ 32`.  After `N - 1` calls of `actions_act_ref` and `k ≤ N` calls of
`actions_act_unref`: if `k < N` the trace and every definition are unchanged
(no free call, no change of the definition's reference count) and the instance
holds `N - k` references; if `k = N` the trace has grown by exactly one call of
the free callback on the instance's options, the instance is gone, and the
definition's reference count has been decremented once (the definition is
released when that reaches zero). -/
theorem C7_ref_unref_balance (s : State) (a : Ptr) (r : ObActionsAct)
    (d : ObActionsDefinition) (f : Ptr) (N k : Nat)
    (hact : s.acts a = some r) (href : r.ref = 1) (hdef : s.defs r.defn = some d)
    (hfree : d.free = some f) (hN : 1 ≤ N) (hmax : N ≤ 2 ^ 32) (hk : k ≤ N) :
    ∃ s1, (act_ref_times (N - 1) a s).bind (fun _ s0 => act_unref_times k a s0)
        = Outcome.ret () s1 ∧
      (k < N → s1.trace = s.trace ∧ s1.defs = s.defs ∧
        s1.acts a = some { r with ref := (N - k) % GUINT_MOD }) ∧
      (k = N → s1.trace = s.trace ++ [Event.free f r.options] ∧ s1.acts a = none ∧
        s1.defs = Function.update s.defs r.defn
          (if (d.ref + GUINT_MOD - 1) % GUINT_MOD = 0 then none
           else some { d with ref := (d.ref + GUINT_MOD - 1) % GUINT_MOD })) := by
  have hmax1 : N ≤ GUINT_MOD := by unfold GUINT_MOD; norm_num at hmax; exact hmax
  have hlt : r.ref < GUINT_MOD := by rw [href]; unfold GUINT_MOD; norm_num
  have hcount : (r.ref + (N - 1)) % GUINT_MOD = N % GUINT_MOD := by
    rw [href]
    congr 1
    omega
  rw [act_ref_times_eq a (N - 1) s r hact hlt, hcount]
  simp only [Outcome.bind]
  rcases Nat.lt_or_eq_of_le hk with hkl | hke
  · have hbelow := act_unref_times_below a k
      { s with acts := Function.update s.acts a (some { r with ref := N % GUINT_MOD }) }
      { r with ref := N % GUINT_MOD } N (Function.update_same a _ s.acts) rfl hmax1 hkl
    refine ⟨_, hbelow, ?_, ?_⟩
    · intro _
      refine ⟨rfl, rfl, ?_⟩
      simp only [Function.update_idem, Function.update_same]
    · intro h
      omega
  · subst hke
    obtain ⟨n, rfl⟩ : ∃ n, k = n + 1 := ⟨k - 1, by omega⟩
    have hlast := act_unref_times_last a n
      { s with acts := Function.update s.acts a (some { r with ref := (n + 1) % GUINT_MOD }) }
      { r with ref := (n + 1) % GUINT_MOD } d f (Function.update_same a _ s.acts) rfl hmax1
      hdef hfree
    refine ⟨_, hlast, ?_, ?_⟩
    · intro h
      omega
    · intro _
      refine ⟨rfl, ?_, rfl⟩
      simp only [Function.update_idem, Function.update_same]

/-- Three references taken on the sample instance (`N = 3`), two released. -/
theorem C7_ref_unref_balance_witness :
    state_bound.acts 0 = some { ref := 1, defn := 0, options := some 40 } ∧
    state_bound.defs 0 = some { def_a with ref := 2 } ∧ 1 ≤ 3 ∧ 3 ≤ 2 ^ 32 ∧ 2 ≤ 3 ∧
    ∃ s1, (act_ref_times (3 - 1) 0 state_bound).bind (fun _ s0 => act_unref_times 2 0 s0)
        = Outcome.ret () s1 ∧
      (2 < 3 → s1.trace = state_bound.trace ∧ s1.defs = state_bound.defs ∧
        s1.acts 0 = some { ref := (3 - 2) % GUINT_MOD, defn := 0, options := some 40 }) ∧
      (2 = 3 → s1.trace = state_bound.trace ++ [Event.free 11 (some 40)] ∧ s1.acts 0 = none ∧
        s1.defs = Function.update state_bound.defs 0
          (if (2 + GUINT_MOD - 1) % GUINT_MOD = 0 then none
           else some { def_a with ref := (2 + GUINT_MOD - 1) % GUINT_MOD })) :=
  ⟨rfl, rfl, by decide, by norm_num, by decide,
    C7_ref_unref_balance state_bound 0 { ref := 1, defn := 0, options := some 40 }
      { def_a with ref := 2 } 11 3 2 rfl rfl rfl rfl (by decide) (by norm_num) (by decide)⟩

/-! ## Dispatch -/

/-- The three ways one loop iteration of `actions_run_acts` can end. -/
theorem run_act_cases (a : Ptr) (uact time state : Nat) (x y : Int) (con : Nat)
    (client : Option Ptr) (s : State) :
    run_act a uact time state x y con client s = Outcome.undef ∨
    run_act a uact time state x y con client s = Outcome.abort s ∨
    ∃ r d f data, s.acts a = some r ∧ s.defs r.defn = some d ∧ d.run = some f ∧
      (d.type = ObActionsType.GLOBAL ∨ d.type = ObActionsType.CLIENT) ∧
      data.type = d.type ∧ data.uact = uact ∧ data.time = time ∧ data.state = state ∧
      data.x = x ∧ data.y = y ∧
      (d.type = ObActionsType.CLIENT → data.context = some con ∧ data.c = some client) ∧
      (d.type = ObActionsType.GLOBAL → data.context = none ∧ data.c = none) ∧
      run_act a uact time state x y con client s
        = Outcome.ret () { s with trace := s.trace ++ [Event.run f data r.options] } := by
  cases hact : s.acts a with
  | none =>
    refine Or.inl ?_
    simp only [run_act, hact]
  | some r =>
    cases hdef : s.defs r.defn with
    | none =>
      refine Or.inl ?_
      simp only [run_act, hact, hdef]
    | some d =>
      cases htype : d.type with
      | other raw =>
        refine Or.inr (Or.inl ?_)
        simp only [run_act, hact, hdef, actions_setup_data, fresh_data, htype]
      | GLOBAL =>
        cases hrun : d.run with
        | none =>
          refine Or.inl ?_
          simp only [run_act, hact, hdef, actions_setup_data, fresh_data, htype, hrun]
        | some f =>
          refine Or.inr (Or.inr ⟨r, d, f,
            { type := ObActionsType.GLOBAL, uact := uact, time := time, state := state, x := x,
              y := y, context := none, c := none }, rfl, hdef, hrun, Or.inl htype,
            htype.symm, rfl, rfl, rfl, rfl, rfl, ?_, ?_, ?_⟩)
          · intro h
            rw [htype] at h
            cases h
          · intro _
            exact ⟨rfl, rfl⟩
          · simp only [run_act, hact, hdef, actions_setup_data, fresh_data, htype, hrun]
      | CLIENT =>
        cases hrun : d.run with
        | none =>
          refine Or.inl ?_
          simp only [run_act, hact, hdef, actions_setup_data, fresh_data, htype, hrun]
        | some f =>
          refine Or.inr (Or.inr ⟨r, d, f,
            { type := ObActionsType.CLIENT, uact := uact, time := time, state := state, x := x,
              y := y, context := some con, c := some client }, rfl, hdef, hrun, Or.inr htype,
            htype.symm, rfl, rfl, rfl, rfl, rfl, ?_, ?_, ?_⟩)
          · intro _
            exact ⟨rfl, rfl⟩
          · intro h
            rw [htype] at h
            cases h
          · simp only [run_act, hact, hdef, actions_setup_data, fresh_data, htype, hrun]


/-- Claim C8.  When every listed instance is live, bound to a live definition of
type GLOBAL or CLIENT with a non-NULL run callback, `actions_run_acts` returns
normally, changes nothing but the trace, and the trace grows by exactly one run
call per list entry, in list order: the i-th new event is the run callback of
the i-th instance's definition called with that instance's options.  The list
is taken as given, so an instance listed twice is run twice. -/
theorem C8_run_acts_in_order (acts : List Ptr) (uact time state : Nat) (x y : Int)
    (con : Nat) (client : Option Ptr) (s : State)
    (hall : ∀ a ∈ acts, ∃ r d f, s.acts a = some r ∧ s.defs r.defn = some d ∧
      d.run = some f ∧ (d.type = ObActionsType.GLOBAL ∨ d.type = ObActionsType.CLIENT)) :
    ∃ s1 evs, actions_run_acts acts uact time state x y con client s = Outcome.ret () s1 ∧
      s1.trace = s.trace ++ evs ∧ s1.defs = s.defs ∧ s1.acts = s.acts ∧
      s1.registered = s.registered ∧ evs.length = acts.length ∧
      List.Forall₂
        (fun a e => ∃ r d f data, s.acts a = some r ∧ s.defs r.defn = some d ∧
          d.run = some f ∧ e = Event.run f data r.options)
        acts evs := by
  induction acts generalizing s with
  | nil =>
    exact ⟨s, [], rfl, (List.append_nil _).symm, rfl, rfl, rfl, rfl, List.Forall₂.nil⟩
  | cons a it ih =>
    obtain ⟨r, d, f, hact, hdef, hrun, htype⟩ := hall a (List.mem_cons_self a it)
    rcases run_act_cases a uact time state x y con client s with hu | hab | hok
    · exfalso
      rcases htype with ht | ht <;>
        simp [run_act, hact, hdef, hrun, ht, actions_setup_data, fresh_data] at hu
    · exfalso
      rcases htype with ht | ht <;>
        simp [run_act, hact, hdef, hrun, ht, actions_setup_data, fresh_data] at hab
    · obtain ⟨r1, d1, f1, data, hact1, hdef1, hrun1, _, _, _, _, _, _, _, _, _, hstep⟩ := hok
      obtain ⟨s1, evs, hrest, htrace, hdefs, hacts, hregd, hlen, hfor⟩ :=
        ih { s with trace := s.trace ++ [Event.run f1 data r1.options] }
          (fun b hb => hall b (List.mem_cons_of_mem a hb))
      refine ⟨s1, Event.run f1 data r1.options :: evs, ?_, ?_, hdefs, hacts, hregd, ?_, ?_⟩
      · rw [actions_run_acts, hstep]
        exact hrest
      · rw [htrace]
        simp only [List.append_assoc, List.singleton_append]
      · simp only [List.length_cons, hlen]
      · exact List.Forall₂.cons ⟨r1, d1, f1, data, hact1, hdef1, hrun1, rfl⟩ hfor

theorem state_mixed_all_runnable :
    ∀ a ∈ [0, 1, 2], ∃ r d f, state_mixed.acts a = some r ∧ state_mixed.defs r.defn = some d ∧
      d.run = some f ∧ (d.type = ObActionsType.GLOBAL ∨ d.type = ObActionsType.CLIENT) := by
  intro a ha
  simp only [List.mem_cons, List.mem_singleton, List.not_mem_nil, or_false] at ha
  rcases ha with rfl | rfl | rfl
  · exact ⟨_, _, _, rfl, rfl, rfl, Or.inl rfl⟩
  · exact ⟨_, _, _, rfl, rfl, rfl, Or.inr rfl⟩
  · exact ⟨_, _, _, rfl, rfl, rfl, Or.inl rfl⟩

/-- The list GLOBAL, CLIENT, GLOBAL over the sample state. -/
theorem C8_run_acts_in_order_witness :
    (∀ a ∈ [0, 1, 2], ∃ r d f, state_mixed.acts a = some r ∧
      state_mixed.defs r.defn = some d ∧ d.run = some f ∧
      (d.type = ObActionsType.GLOBAL ∨ d.type = ObActionsType.CLIENT)) ∧
    ∃ s1 evs, actions_run_acts [0, 1, 2] 5 6 7 8 (-9) 3 (some 50) state_mixed
        = Outcome.ret () s1 ∧
      s1.trace = state_mixed.trace ++ evs ∧ s1.defs = state_mixed.defs ∧
      s1.acts = state_mixed.acts ∧ s1.registered = state_mixed.registered ∧
      evs.length = [0, 1, 2].length ∧
      List.Forall₂
        (fun a e => ∃ r d f data, state_mixed.acts a = some r ∧
          state_mixed.defs r.defn = some d ∧ d.run = some f ∧ e = Event.run f data r.options)
        [0, 1, 2] evs :=
  ⟨state_mixed_all_runnable,
    C8_run_acts_in_order [0, 1, 2] 5 6 7 8 (-9) 3 (some 50) state_mixed state_mixed_all_runnable⟩

/-- Claim C9.  Whenever `actions_run_acts` ends with a state (normal return or
the fatal default branch), the run calls it made are those of an initial part
`ran` of the list, one per instance and in order, and that part is the whole
list when the call returned.  Each run callback was handed a record whose
discriminant is the definition's type, whose `uact`, `time`, `state`, `x`, `y`
are the call's arguments, and, when the type is CLIENT, whose `context` is
`con` and whose client field is `client`. -/
theorem C9_event_record_fields (acts : List Ptr) (uact time state : Nat) (x y : Int)
    (con : Nat) (client : Option Ptr) (s s1 : State)
    (hout : actions_run_acts acts uact time state x y con client s = Outcome.ret () s1 ∨
      actions_run_acts acts uact time state x y con client s = Outcome.abort s1) :
    ∃ evs ran rest, acts = ran ++ rest ∧ s1.trace = s.trace ++ evs ∧
      (actions_run_acts acts uact time state x y con client s = Outcome.ret () s1 → rest = []) ∧
      List.Forall₂
        (fun a e => ∃ r d f data, s.acts a = some r ∧ s.defs r.defn = some d ∧
          d.run = some f ∧ e = Event.run f data r.options ∧
          data.type = d.type ∧ data.uact = uact ∧ data.time = time ∧ data.state = state ∧
          data.x = x ∧ data.y = y ∧
          (d.type = ObActionsType.CLIENT → data.context = some con ∧ data.c = some client))
        ran evs := by
  induction acts generalizing s with
  | nil =>
    have hs : s1 = s := by
      rcases hout with h | h
      · simp only [actions_run_acts, Outcome.ret.injEq, true_and] at h
        exact h.symm
      · simp only [actions_run_acts] at h
        cases h
    subst hs
    exact ⟨[], [], [], rfl, (List.append_nil _).symm, fun _ => rfl, List.Forall₂.nil⟩
  | cons a it ih =>
    rcases run_act_cases a uact time state x y con client s with hu | hab | hok
    · exfalso
      rw [actions_run_acts, hu] at hout
      rcases hout with h | h <;> simp only [Outcome.bind] at h <;> cases h
    · rw [actions_run_acts, hab] at hout
      have hs : s1 = s := by
        rcases hout with h | h
        · simp only [Outcome.bind] at h
          cases h
        · simp only [Outcome.bind, Outcome.abort.injEq] at h
          exact h.symm
      subst hs
      refine ⟨[], [], a :: it, rfl, (List.append_nil _).symm, ?_, List.Forall₂.nil⟩
      intro h
      rw [actions_run_acts, hab] at h
      simp only [Outcome.bind] at h
      cases h
    · obtain ⟨r, d, f, data, hact, hdef, hrun, _, hty, hua, hti, hst, hx, hy, hcl, _, hstep⟩ := hok
      have hrun_eq : actions_run_acts (a :: it) uact time state x y con client s
          = actions_run_acts it uact time state x y con client
              { s with trace := s.trace ++ [Event.run f data r.options] } := by
        rw [actions_run_acts, hstep]
        rfl
      rw [hrun_eq] at hout
      obtain ⟨evs, ran, rest, hsplit, htrace, hret, hfor⟩ :=
        ih { s with trace := s.trace ++ [Event.run f data r.options] } hout
      refine ⟨Event.run f data r.options :: evs, a :: ran, rest, ?_, ?_, ?_, ?_⟩
      · rw [hsplit]
        rfl
      · rw [htrace]
        simp only [List.append_assoc, List.singleton_append]
      · intro h
        rw [hrun_eq] at h
        exact hret h
      · exact List.Forall₂.cons
          ⟨r, d, f, data, hact, hdef, hrun, rfl, hty, hua, hti, hst, hx, hy, hcl⟩ hfor

/-- The list GLOBAL, CLIENT, GLOBAL over the sample state, run to the end. -/
theorem C9_event_record_fields_witness :
    (actions_run_acts [0, 1, 2] 5 6 7 8 (-9) 3 (some 50) state_mixed
        = Outcome.ret () state_mixed_after ∨
      actions_run_acts [0, 1, 2] 5 6 7 8 (-9) 3 (some 50) state_mixed
        = Outcome.abort state_mixed_after) ∧
    ∃ evs ran rest, [0, 1, 2] = ran ++ rest ∧ state_mixed_after.trace = state_mixed.trace ++ evs ∧
      (actions_run_acts [0, 1, 2] 5 6 7 8 (-9) 3 (some 50) state_mixed
        = Outcome.ret () state_mixed_after → rest = []) ∧
      List.Forall₂
        (fun a e => ∃ r d f data, state_mixed.acts a = some r ∧
          state_mixed.defs r.defn = some d ∧ d.run = some f ∧ e = Event.run f data r.options ∧
          data.type = d.type ∧ data.uact = 5 ∧ data.time = 6 ∧ data.state = 7 ∧
          data.x = 8 ∧ data.y = -9 ∧
          (d.type = ObActionsType.CLIENT → data.context = some 3 ∧ data.c = some (some 50)))
        ran evs :=
  ⟨Or.inl rfl,
    C9_event_record_fields [0, 1, 2] 5 6 7 8 (-9) 3 (some 50) state_mixed state_mixed_after
      (Or.inl rfl)⟩

/-- Claim C10.  Let `actions_register` return TRUE (so the assertion held); the
definition it created sits at the address `s.nextDef` with the callbacks passed
in.  For every state `t` in which that definition is still there, with any
reference count `n`, and every instance bound to it, `actions_act_is_interactive`
returns TRUE exactly when both `i_input` and `i_cancel` were non-NULL, and
FALSE when the registration supplied neither. -/
theorem C10_is_interactive_iff (name : List Char) (type : ObActionsType)
    (setup free run i_input i_cancel : Option Ptr) (s s1 t : State) (a : Ptr)
    (r : ObActionsAct) (n : Nat)
    (hreg : actions_register name type setup free run i_input i_cancel s = Outcome.ret true s1)
    (hact : t.acts a = some r) (hbound : r.defn = s.nextDef)
    (hdef : t.defs s.nextDef
      = some { ref := n, name := name, type := type, setup := setup, free := free, run := run,
               i_input := i_input, i_cancel := i_cancel }) :
    s1.defs s.nextDef
      = some { ref := 1, name := name, type := type, setup := setup, free := free, run := run,
               i_input := i_input, i_cancel := i_cancel } ∧
    actions_act_is_interactive a t = Outcome.ret (i_input.isSome && i_cancel.isSome) t ∧
    (actions_act_is_interactive a t = Outcome.ret true t ↔ (i_input ≠ none ∧ i_cancel ≠ none)) ∧
    (i_input = none → i_cancel = none → actions_act_is_interactive a t = Outcome.ret false t) := by
  have hval : actions_act_is_interactive a t = Outcome.ret i_cancel.isSome t := by
    unfold actions_act_is_interactive
    simp only [hact, hbound, hdef]
  unfold actions_register at hreg
  cases hscan : register_scan s.defs name s.registered with
  | none =>
    rw [hscan] at hreg
    cases hreg
  | some b =>
    rw [hscan] at hreg
    cases b with
    | true =>
      simp only [Outcome.ret.injEq, Bool.false_eq_true, false_and] at hreg
    | false =>
      by_cases hic : i_input.isNone = i_cancel.isNone
      · simp only [hic, if_true, Outcome.ret.injEq, true_and] at hreg
        subst hreg
        refine ⟨by simp only [Function.update_same], ?_, ?_, ?_⟩
        · rw [hval]
          cases i_input <;> cases i_cancel <;> simp at hic ⊢
        · rw [hval]
          cases i_input <;> cases i_cancel <;> simp at hic ⊢
        · intro _ hc
          rw [hval, hc]
          rfl
      · simp only [hic, if_false] at hreg
        cases hreg

/-- Registering the interactive definition `i` from the initial state. -/
theorem C10_is_interactive_iff_witness :
    actions_register ['i'] ObActionsType.CLIENT (some 10) (some 11) (some 12) (some 4) (some 5)
      State.init
      = Outcome.ret true
          { State.init with
            defs := Function.update State.init.defs 0
              (some { ref := 1, name := ['i'], type := ObActionsType.CLIENT, setup := some 10,
                      free := some 11, run := some 12, i_input := some 4, i_cancel := some 5 })
            nextDef := 1 } ∧
    state_interactive.acts 0 = some { ref := 1, defn := 0, options := none } ∧
    actions_act_is_interactive 0 state_interactive = Outcome.ret true state_interactive :=
  ⟨rfl, rfl,
    (C10_is_interactive_iff ['i'] ObActionsType.CLIENT (some 10) (some 11) (some 12) (some 4)
      (some 5) State.init _ state_interactive 0 { ref := 1, defn := 0, options := none } 2
      rfl rfl rfl rfl).2.1⟩

/-! ## Startup and shutdown -/

theorem shutdown_loop_distinct (l : List Ptr) (s : State) (hnd : l.Nodup)
    (hlive : ∀ p ∈ l, ∃ d, s.defs p = some d) :
    ∃ s1, shutdown_loop l s = Outcome.ret () s1 ∧ s1.registered = [] ∧ s1.acts = s.acts ∧
      s1.trace = s.trace ∧ s1.nextDef = s.nextDef ∧ s1.nextAct = s.nextAct ∧
      (∀ p, p ∉ l → s1.defs p = s.defs p) ∧
      (∀ p ∈ l, ∀ d, s.defs p = some d →
        s1.defs p = if (d.ref + GUINT_MOD - 1) % GUINT_MOD = 0 then none
          else some { d with ref := (d.ref + GUINT_MOD - 1) % GUINT_MOD }) := by
  induction l generalizing s with
  | nil =>
    exact ⟨{ s with registered := [] }, rfl, rfl, rfl, rfl, rfl, rfl, fun _ _ => rfl,
      fun p hp => absurd hp (List.not_mem_nil p)⟩
  | cons q it ih =>
    obtain ⟨dq, hdq⟩ := hlive q (List.mem_cons_self q it)
    have hq_notin : q ∉ it := (List.nodup_cons.mp hnd).1
    have hnd_it : it.Nodup := (List.nodup_cons.mp hnd).2
    have hstep := actions_definition_unref_live q s dq hdq
    have hne : ∀ p ∈ it, p ≠ q := fun p hp h => hq_notin (h ▸ hp)
    obtain ⟨s1, hrun, hreg, hacts, htrace, hnd1, hna1, hout, hin⟩ :=
      ih
        { defs := Function.update s.defs q
            (if (dq.ref + GUINT_MOD - 1) % GUINT_MOD = 0 then none
             else some { dq with ref := (dq.ref + GUINT_MOD - 1) % GUINT_MOD })
          acts := s.acts, registered := it, nextDef := s.nextDef, nextAct := s.nextAct,
          trace := s.trace }
        hnd_it
        (fun p hp => by
          obtain ⟨d, hd⟩ := hlive p (List.mem_cons_of_mem q hp)
          exact ⟨d, by simp only [Function.update_noteq (hne p hp)]; exact hd⟩)
    refine ⟨s1, ?_, hreg, hacts, htrace, hnd1, hna1, ?_, ?_⟩
    · rw [shutdown_loop, hstep]
      exact hrun
    · intro p hp
      have hpq : p ≠ q := fun h => hp (h ▸ List.mem_cons_self q it)
      have hpit : p ∉ it := fun h => hp (List.mem_cons_of_mem q h)
      rw [hout p hpit]
      simp only [Function.update_noteq hpq]
    · intro p hp d hd
      rcases List.mem_cons.mp hp with h | h
      · subst h
        rw [hout p hq_notin]
        rw [hdq] at hd
        cases hd
        simp only [Function.update_same]
      · have hpq : p ≠ q := hne p h
        exact hin p h d (by simp only [Function.update_noteq hpq]; exact hd)

/-- On a registry of distinct live definitions `actions_shutdown(FALSE)` empties
the list and decrements each listed definition once (releasing it when the
count reaches zero); nothing else changes. -/
theorem actions_shutdown_false_distinct (s : State) (hnd : s.registered.Nodup)
    (hlive : RegistryLive s) :
    ∃ s1, actions_shutdown false s = Outcome.ret () s1 ∧ s1.registered = [] ∧
      s1.acts = s.acts ∧ s1.trace = s.trace ∧
      (∀ p, p ∉ s.registered → s1.defs p = s.defs p) ∧
      (∀ p ∈ s.registered, ∀ d, s.defs p = some d →
        s1.defs p = if (d.ref + GUINT_MOD - 1) % GUINT_MOD = 0 then none
          else some { d with ref := (d.ref + GUINT_MOD - 1) % GUINT_MOD }) := by
  obtain ⟨s1, hrun, hreg, hacts, htrace, _, _, hout, hin⟩ :=
    shutdown_loop_distinct s.registered s hnd hlive
  exact ⟨s1, by simpa [actions_shutdown] using hrun, hreg, hacts, htrace, hout, hin⟩


/-- Claim C12.  `actions_shutdown(TRUE)`, `actions_startup(TRUE)` and
`actions_startup(FALSE)` return with the program state unchanged, so a lookup
made after any of them gives exactly what it gave before, for every name. -/
theorem C12_reconfig_leaves_state (s : State) :
    actions_shutdown true s = Outcome.ret () s ∧
    actions_startup true s = Outcome.ret () s ∧
    actions_startup false s = Outcome.ret () s ∧
    ∀ (junk : Option Ptr) (name : List Char),
      (actions_shutdown true s).bind (fun _ s1 => actions_parse_string junk name s1)
        = actions_parse_string junk name s ∧
      (actions_startup true s).bind (fun _ s1 => actions_parse_string junk name s1)
        = actions_parse_string junk name s ∧
      (actions_startup false s).bind (fun _ s1 => actions_parse_string junk name s1)
        = actions_parse_string junk name s :=
  ⟨rfl, rfl, rfl, fun _ _ => ⟨rfl, rfl, rfl⟩⟩

/-- Claim C13 (the code departs from it).  The state after one registration from
the initial state is reachable; its definition has reference count 1 although
no instance is bound to it and the registry does not hold it, so the counting
rule fails there. -/
theorem C13_leaked_definition_breaks_count :
    actions_register ['a'] ObActionsType.CLIENT (some 10) (some 11) (some 12) none none
      State.init = Outcome.ret true state_leaked ∧
    Reachable state_leaked ∧ state_leaked.defs 0 = some def_a ∧ def_a.ref = 1 ∧
    live_instances state_leaked 0 = 0 ∧ registry_share state_leaked 0 = 0 ∧
    ¬ RefcountInvariant state_leaked :=
  ⟨rfl,
    Reachable.register State.init state_leaked ['a'] ObActionsType.CLIENT (some 10) (some 11)
      (some 12) none none true Reachable.init rfl,
    rfl, rfl, rfl, rfl,
    fun h => absurd (h 0 def_a rfl) (by decide)⟩

/-- Claim C14.  `actions_act_unref(NULL)` returns with the program state
unchanged: the trace gains no free call and no definition, instance or list
entry is touched. -/
theorem C14_unref_null (s : State) : actions_act_unref none s = Outcome.ret () s :=
  rfl

/-! ## The registry in reachable states -/

theorem Outcome.bind_eq_ret {α β : Type} (o : Outcome α) (k : α → State → Outcome β)
    (v : β) (s1 : State) (h : o.bind k = Outcome.ret v s1) :
    ∃ u t, o = Outcome.ret u t ∧ k u t = Outcome.ret v s1 := by
  cases o with
  | ret u t => exact ⟨u, t, rfl, h⟩
  | abort t => cases h
  | undef => cases h

theorem actions_definition_ref_registered (p : Ptr) (s s1 : State)
    (h : actions_definition_ref p s = Outcome.ret () s1) : s1.registered = s.registered := by
  unfold actions_definition_ref at h
  split at h
  · cases h
  · cases h
    rfl

theorem actions_definition_unref_registered (p : Option Ptr) (s s1 : State)
    (h : actions_definition_unref p s = Outcome.ret () s1) : s1.registered = s.registered := by
  unfold actions_definition_unref at h
  split at h
  · cases h
    rfl
  · split at h
    · cases h
    · split at h
      · cases h
        rfl
      · cases h
        rfl

theorem actions_register_registered (name : List Char) (type : ObActionsType)
    (setup free run i_input i_cancel : Option Ptr) (b : Bool) (s s1 : State)
    (h : actions_register name type setup free run i_input i_cancel s = Outcome.ret b s1) :
    s1.registered = s.registered := by
  unfold actions_register at h
  split at h
  · cases h
  · cases h
    rfl
  · split at h
    · cases h
      rfl
    · cases h

theorem actions_parse_string_registered (junk : Option Ptr) (name : List Char)
    (a : Option Ptr) (s s1 : State)
    (h : actions_parse_string junk name s = Outcome.ret a s1) :
    s1.registered = s.registered := by
  unfold actions_parse_string at h
  split at h
  · cases h
  · obtain ⟨u, t, hret, hk⟩ := Outcome.bind_eq_ret _ _ _ _ h
    cases hk
    have hr := actions_definition_ref_registered _ _ _ hret
    exact hr
  · cases h
    rfl

theorem actions_parse_registered (setup_ret : Ptr → Ptr → Ptr → Ptr → Option Ptr)
    (junk : Option Ptr) (i doc : Ptr) (node : XmlNode) (a : Option Ptr) (s s1 : State)
    (h : actions_parse setup_ret junk i doc node s = Outcome.ret a s1) :
    s1.registered = s.registered := by
  unfold actions_parse at h
  split at h
  · obtain ⟨u, t, hret, hk⟩ := Outcome.bind_eq_ret _ _ _ _ h
    have ht := actions_parse_string_registered _ _ _ _ _ hret
    split at hk
    · cases hk
      exact ht
    · split at hk
      · cases hk
      · split at hk
        · cases hk
        · split at hk
          · cases hk
          · cases hk
            exact ht
  · cases h
    rfl

theorem actions_act_ref_registered (a : Ptr) (s s1 : State)
    (h : actions_act_ref a s = Outcome.ret () s1) : s1.registered = s.registered := by
  unfold actions_act_ref at h
  split at h
  · cases h
  · cases h
    rfl

theorem actions_act_unref_call_state_registered (a : Option Ptr) (v : Option State)
    (s s1 : State) (h : actions_act_unref_call_state a s = Outcome.ret v s1) :
    s1.registered = s.registered := by
  unfold actions_act_unref_call_state at h
  split at h
  · cases h
    rfl
  · split at h
    · cases h
    · split at h
      · split at h
        · cases h
        · split at h
          · cases h
          · obtain ⟨u, t, hret, hk⟩ := Outcome.bind_eq_ret _ _ _ _ h
            cases hk
            have hr := actions_definition_unref_registered _ _ _ hret
            exact hr
      · cases h
        rfl

theorem actions_act_unref_registered (a : Option Ptr) (s s1 : State)
    (h : actions_act_unref a s = Outcome.ret () s1) : s1.registered = s.registered := by
  unfold actions_act_unref at h
  obtain ⟨u, t, hret, hk⟩ := Outcome.bind_eq_ret _ _ _ _ h
  cases hk
  exact actions_act_unref_call_state_registered a u s _ hret

/-- In every reachable state the list `registered` is empty. -/
theorem Reachable.registered_nil (s : State) (h : Reachable s) : s.registered = [] := by
  induction h with
  | init => rfl
  | startup s s1 reconfig _ hstep ih =>
    unfold actions_startup at hstep
    split at hstep
    · cases hstep
      exact ih
    · cases hstep
      exact ih
  | shutdown s s1 reconfig _ hstep ih =>
    unfold actions_shutdown at hstep
    split at hstep
    · cases hstep
      exact ih
    · rw [ih, shutdown_loop] at hstep
      cases hstep
      rfl
  | register s s1 name type setup free run i_input i_cancel b _ hstep ih =>
    rw [actions_register_registered _ _ _ _ _ _ _ _ _ _ hstep, ih]
  | parse_string s s1 junk name a _ hstep ih =>
    rw [actions_parse_string_registered _ _ _ _ _ hstep, ih]
  | parse s s1 setup_ret junk i doc node a _ hstep ih =>
    rw [actions_parse_registered _ _ _ _ _ _ _ _ hstep, ih]
  | act_ref s s1 a _ hstep ih =>
    rw [actions_act_ref_registered _ _ _ hstep, ih]
  | act_unref s s1 a _ hstep ih =>
    rw [actions_act_unref_registered _ _ _ hstep, ih]


theorem actions_parse_string_empty_null (name : List Char) (s : State)
    (hempty : s.registered = []) :
    actions_parse_string none name s
      = Outcome.ret none { s with trace := s.trace ++ [Event.message name] } := by
  unfold actions_parse_string
  rw [hempty]
  rfl

theorem actions_parse_string_empty_stale (p : Ptr) (d : ObActionsDefinition)
    (name : List Char) (s : State) (hempty : s.registered = []) (hd : s.defs p = some d) :
    actions_parse_string (some p) name s
      = Outcome.ret (some s.nextAct)
          { defs := Function.update s.defs p (some { d with ref := (d.ref + 1) % GUINT_MOD })
            acts := Function.update s.acts s.nextAct
              (some { ref := 1, defn := p, options := none })
            registered := s.registered
            nextDef := s.nextDef
            nextAct := s.nextAct + 1
            trace := s.trace } := by
  unfold actions_parse_string
  rw [hempty]
  simp only [parse_scan, actions_definition_ref, hd, Outcome.bind, hempty]

theorem state_leaked_reachable : Reachable state_leaked :=
  Reachable.register State.init state_leaked ['a'] ObActionsType.CLIENT (some 10) (some 11)
    (some 12) none none true Reachable.init rfl

/-- Claim C18 (the code departs from it in the lookup).  In every reachable state
`registered` is empty, and a registration that returns TRUE leaves it empty
while the new definition sits at the address `nextDef`.  A lookup therefore
never enters its loop, and its result is whatever the uninitialised local `def`
holds: read as NULL, the call returns no instance and emits the diagnostic;
read as the address of a live definition, the call returns a new instance bound
to that definition, for any name. -/
theorem C18_registry_never_filled (s : State) (h : Reachable s) :
    s.registered = [] ∧
    (∀ (name : List Char) (type : ObActionsType) (setup free run i_input i_cancel : Option Ptr)
        (s1 : State),
      actions_register name type setup free run i_input i_cancel s = Outcome.ret true s1 →
      s1.registered = [] ∧
      s1.defs s.nextDef
        = some { ref := 1, name := name, type := type, setup := setup, free := free,
                 run := run, i_input := i_input, i_cancel := i_cancel }) ∧
    (∀ name : List Char,
      actions_parse_string none name s
        = Outcome.ret none { s with trace := s.trace ++ [Event.message name] }) ∧
    (∀ (p : Ptr) (d : ObActionsDefinition) (name : List Char), s.defs p = some d →
      actions_parse_string (some p) name s
        = Outcome.ret (some s.nextAct)
            { defs := Function.update s.defs p (some { d with ref := (d.ref + 1) % GUINT_MOD })
              acts := Function.update s.acts s.nextAct
                (some { ref := 1, defn := p, options := none })
              registered := s.registered
              nextDef := s.nextDef
              nextAct := s.nextAct + 1
              trace := s.trace }) := by
  have hempty := Reachable.registered_nil s h
  refine ⟨hempty, ?_, ?_, ?_⟩
  · intro name type setup free run i_input i_cancel s1 hreg
    refine ⟨by rw [actions_register_registered _ _ _ _ _ _ _ _ _ _ hreg, hempty], ?_⟩
    unfold actions_register at hreg
    rw [hempty] at hreg
    simp only [register_scan] at hreg
    split at hreg
    · cases hreg
      simp only [Function.update_same]
    · cases hreg
  · intro name
    exact actions_parse_string_empty_null name s hempty
  · intro p d name hd
    exact actions_parse_string_empty_stale p d name s hempty hd

/-- After `a` has been registered from the initial state, the lookup of `a` with
the local `def` holding the address of the new definition. -/
theorem C18_registry_never_filled_witness :
    Reachable state_leaked ∧ state_leaked.registered = [] ∧
    actions_parse_string (some 0) ['a'] state_leaked
      = Outcome.ret (some state_leaked.nextAct)
          { defs := Function.update state_leaked.defs 0
              (some { def_a with ref := (def_a.ref + 1) % GUINT_MOD })
            acts := Function.update state_leaked.acts state_leaked.nextAct
              (some { ref := 1, defn := 0, options := none })
            registered := state_leaked.registered
            nextDef := state_leaked.nextDef
            nextAct := state_leaked.nextAct + 1
            trace := state_leaked.trace } :=
  ⟨state_leaked_reachable, (C18_registry_never_filled state_leaked state_leaked_reachable).1,
    (C18_registry_never_filled state_leaked state_leaked_reachable).2.2.2 0 def_a ['a'] rfl⟩

/-! ## Release of parsed instances -/

/-! ## Dispatch: dependence on the client arguments and the fatal branch -/

theorem actions_run_acts_cons_ret (a : Ptr) (it : List Ptr) (uact time state : Nat)
    (x y : Int) (con : Nat) (client : Option Ptr) (t t1 : State)
    (hstep : run_act a uact time state x y con client t = Outcome.ret () t1) :
    actions_run_acts (a :: it) uact time state x y con client t
      = actions_run_acts it uact time state x y con client t1 := by
  rw [actions_run_acts, hstep]
  rfl

theorem actions_run_acts_cons_abort (a : Ptr) (it : List Ptr) (uact time state : Nat)
    (x y : Int) (con : Nat) (client : Option Ptr) (t : State)
    (hstep : run_act a uact time state x y con client t = Outcome.abort t) :
    actions_run_acts (a :: it) uact time state x y con client t = Outcome.abort t := by
  rw [actions_run_acts, hstep]
  rfl

theorem actions_run_acts_cons_undef (a : Ptr) (it : List Ptr) (uact time state : Nat)
    (x y : Int) (con : Nat) (client : Option Ptr) (t : State)
    (hstep : run_act a uact time state x y con client t = Outcome.undef) :
    actions_run_acts (a :: it) uact time state x y con client t = Outcome.undef := by
  rw [actions_run_acts, hstep]
  rfl

theorem run_act_no_instance (a : Ptr) (uact time state : Nat) (x y : Int) (con : Nat)
    (client : Option Ptr) (t : State) (hact : t.acts a = none) :
    run_act a uact time state x y con client t = Outcome.undef := by
  simp only [run_act, hact]

theorem run_act_no_definition (a : Ptr) (uact time state : Nat) (x y : Int) (con : Nat)
    (client : Option Ptr) (t : State) (r : ObActionsAct) (hact : t.acts a = some r)
    (hdef : t.defs r.defn = none) :
    run_act a uact time state x y con client t = Outcome.undef := by
  simp only [run_act, hact, hdef]

theorem run_act_other (a : Ptr) (uact time state : Nat) (x y : Int) (con : Nat)
    (client : Option Ptr) (t : State) (r : ObActionsAct) (d : ObActionsDefinition)
    (raw : Nat) (hact : t.acts a = some r) (hdef : t.defs r.defn = some d)
    (htype : d.type = ObActionsType.other raw) :
    run_act a uact time state x y con client t = Outcome.abort t := by
  simp only [run_act, hact, hdef, actions_setup_data, fresh_data, htype]

theorem run_act_no_callback (a : Ptr) (uact time state : Nat) (x y : Int) (con : Nat)
    (client : Option Ptr) (t : State) (r : ObActionsAct) (d : ObActionsDefinition)
    (hact : t.acts a = some r) (hdef : t.defs r.defn = some d)
    (htype : d.type = ObActionsType.GLOBAL ∨ d.type = ObActionsType.CLIENT)
    (hrun : d.run = none) :
    run_act a uact time state x y con client t = Outcome.undef := by
  rcases htype with ht | ht <;>
    simp only [run_act, hact, hdef, actions_setup_data, fresh_data, ht, hrun]

theorem run_act_global (a : Ptr) (uact time state : Nat) (x y : Int) (con : Nat)
    (client : Option Ptr) (t : State) (r : ObActionsAct) (d : ObActionsDefinition) (f : Ptr)
    (hact : t.acts a = some r) (hdef : t.defs r.defn = some d)
    (htype : d.type = ObActionsType.GLOBAL) (hrun : d.run = some f) :
    run_act a uact time state x y con client t
      = Outcome.ret ()
          { t with
            trace := t.trace ++
              [Event.run f
                { type := ObActionsType.GLOBAL, uact := uact, time := time, state := state,
                  x := x, y := y, context := none, c := none } r.options] } := by
  simp only [run_act, hact, hdef, actions_setup_data, fresh_data, htype, hrun]

theorem run_act_client (a : Ptr) (uact time state : Nat) (x y : Int) (con : Nat)
    (client : Option Ptr) (t : State) (r : ObActionsAct) (d : ObActionsDefinition) (f : Ptr)
    (hact : t.acts a = some r) (hdef : t.defs r.defn = some d)
    (htype : d.type = ObActionsType.CLIENT) (hrun : d.run = some f) :
    run_act a uact time state x y con client t
      = Outcome.ret ()
          { t with
            trace := t.trace ++
              [Event.run f
                { type := ObActionsType.CLIENT, uact := uact, time := time, state := state,
                  x := x, y := y, context := some con, c := some client } r.options] } := by
  simp only [run_act, hact, hdef, actions_setup_data, fresh_data, htype, hrun]


theorem actions_run_acts_pair (acts : List Ptr) (uact time state : Nat) (x y : Int)
    (con1 con2 : Nat) (client1 client2 : Option Ptr) (s t1 t2 s1 s2 : State)
    (ha1 : t1.acts = s.acts) (hd1 : t1.defs = s.defs)
    (ha2 : t2.acts = s.acts) (hd2 : t2.defs = s.defs)
    (h1 : actions_run_acts acts uact time state x y con1 client1 t1 = Outcome.ret () s1 ∨
      actions_run_acts acts uact time state x y con1 client1 t1 = Outcome.abort s1)
    (h2 : actions_run_acts acts uact time state x y con2 client2 t2 = Outcome.ret () s2 ∨
      actions_run_acts acts uact time state x y con2 client2 t2 = Outcome.abort s2) :
    ∃ evs1 evs2 ran rest, acts = ran ++ rest ∧ s1.trace = t1.trace ++ evs1 ∧
      s2.trace = t2.trace ++ evs2 ∧ evs1.length = ran.length ∧ evs2.length = ran.length ∧
      List.Forall₂
        (fun a (ee : Event × Event) => ∃ r d f data1 data2, s.acts a = some r ∧
          s.defs r.defn = some d ∧ d.run = some f ∧
          ee.1 = Event.run f data1 r.options ∧ ee.2 = Event.run f data2 r.options ∧
          (d.type = ObActionsType.GLOBAL →
            data1 = data2 ∧
            data1 = { type := ObActionsType.GLOBAL, uact := uact, time := time, state := state,
                      x := x, y := y, context := none, c := none }))
        ran (evs1.zip evs2) := by
  induction acts generalizing t1 t2 with
  | nil =>
    have e1 : s1 = t1 := by
      rcases h1 with h | h
      · simp only [actions_run_acts, Outcome.ret.injEq, true_and] at h
        exact h.symm
      · simp only [actions_run_acts] at h
        cases h
    have e2 : s2 = t2 := by
      rcases h2 with h | h
      · simp only [actions_run_acts, Outcome.ret.injEq, true_and] at h
        exact h.symm
      · simp only [actions_run_acts] at h
        cases h
    subst e1 e2
    exact ⟨[], [], [], [], rfl, (List.append_nil _).symm, (List.append_nil _).symm, rfl, rfl,
      List.Forall₂.nil⟩
  | cons a it ih =>
    have stop : ∀ (t u : State) (con : Nat) (client : Option Ptr),
        run_act a uact time state x y con client t = Outcome.abort t →
        (actions_run_acts (a :: it) uact time state x y con client t = Outcome.ret () u ∨
          actions_run_acts (a :: it) uact time state x y con client t = Outcome.abort u) →
        u = t := by
      intro t u con client hstep h
      rw [actions_run_acts_cons_abort a it uact time state x y con client t hstep] at h
      rcases h with h | h
      · cases h
      · cases h
        rfl
    have crash : ∀ (t u : State) (con : Nat) (client : Option Ptr),
        run_act a uact time state x y con client t = Outcome.undef →
        (actions_run_acts (a :: it) uact time state x y con client t = Outcome.ret () u ∨
          actions_run_acts (a :: it) uact time state x y con client t = Outcome.abort u) →
        False := by
      intro t u con client hstep h
      rw [actions_run_acts_cons_undef a it uact time state x y con client t hstep] at h
      rcases h with h | h <;> cases h
    cases hact : s.acts a with
    | none =>
      exact (crash t1 s1 con1 client1
        (run_act_no_instance a uact time state x y con1 client1 t1 (by rw [ha1]; exact hact))
        h1).elim
    | some r =>
      have hact1 : t1.acts a = some r := by rw [ha1]; exact hact
      have hact2 : t2.acts a = some r := by rw [ha2]; exact hact
      cases hdef : s.defs r.defn with
      | none =>
        exact (crash t1 s1 con1 client1
          (run_act_no_definition a uact time state x y con1 client1 t1 r hact1
            (by rw [hd1]; exact hdef)) h1).elim
      | some d =>
        have hdef1 : t1.defs r.defn = some d := by rw [hd1]; exact hdef
        have hdef2 : t2.defs r.defn = some d := by rw [hd2]; exact hdef
        cases htype : d.type with
        | other raw =>
          have e1 := stop t1 s1 con1 client1
            (run_act_other a uact time state x y con1 client1 t1 r d raw hact1 hdef1 htype) h1
          have e2 := stop t2 s2 con2 client2
            (run_act_other a uact time state x y con2 client2 t2 r d raw hact2 hdef2 htype) h2
          subst e1 e2
          exact ⟨[], [], [], a :: it, rfl, (List.append_nil _).symm, (List.append_nil _).symm,
            rfl, rfl, List.Forall₂.nil⟩
        | GLOBAL =>
          cases hrun : d.run with
          | none =>
            exact (crash t1 s1 con1 client1
              (run_act_no_callback a uact time state x y con1 client1 t1 r d hact1 hdef1
                (Or.inl htype) hrun) h1).elim
          | some f =>
            have hs1 := run_act_global a uact time state x y con1 client1 t1 r d f hact1 hdef1
              htype hrun
            have hs2 := run_act_global a uact time state x y con2 client2 t2 r d f hact2 hdef2
              htype hrun
            rw [actions_run_acts_cons_ret a it uact time state x y con1 client1 t1 _ hs1] at h1
            rw [actions_run_acts_cons_ret a it uact time state x y con2 client2 t2 _ hs2] at h2
            obtain ⟨evs1, evs2, ran, rest, hsplit, htr1, htr2, hl1, hl2, hfor⟩ :=
              ih
                { t1 with
                  trace := t1.trace ++
                    [Event.run f
                      { type := ObActionsType.GLOBAL, uact := uact, time := time, state := state,
                        x := x, y := y, context := none, c := none } r.options] }
                { t2 with
                  trace := t2.trace ++
                    [Event.run f
                      { type := ObActionsType.GLOBAL, uact := uact, time := time, state := state,
                        x := x, y := y, context := none, c := none } r.options] }
                ha1 hd1 ha2 hd2 h1 h2
            refine ⟨(Event.run f
                { type := ObActionsType.GLOBAL, uact := uact, time := time, state := state,
                  x := x, y := y, context := none, c := none } r.options) :: evs1,
              (Event.run f
                { type := ObActionsType.GLOBAL, uact := uact, time := time, state := state,
                  x := x, y := y, context := none, c := none } r.options) :: evs2,
              a :: ran, rest, by rw [hsplit]; rfl, ?_, ?_, ?_, ?_, ?_⟩
            · rw [htr1]
              simp only [List.append_assoc, List.singleton_append]
            · rw [htr2]
              simp only [List.append_assoc, List.singleton_append]
            · simp only [List.length_cons, hl1]
            · simp only [List.length_cons, hl2]
            · rw [List.zip_cons_cons]
              exact List.Forall₂.cons ⟨r, d, f, _, _, hact, hdef, hrun, rfl, rfl,
                fun _ => ⟨rfl, rfl⟩⟩ hfor
        | CLIENT =>
          cases hrun : d.run with
          | none =>
            exact (crash t1 s1 con1 client1
              (run_act_no_callback a uact time state x y con1 client1 t1 r d hact1 hdef1
                (Or.inr htype) hrun) h1).elim
          | some f =>
            have hs1 := run_act_client a uact time state x y con1 client1 t1 r d f hact1 hdef1
              htype hrun
            have hs2 := run_act_client a uact time state x y con2 client2 t2 r d f hact2 hdef2
              htype hrun
            rw [actions_run_acts_cons_ret a it uact time state x y con1 client1 t1 _ hs1] at h1
            rw [actions_run_acts_cons_ret a it uact time state x y con2 client2 t2 _ hs2] at h2
            obtain ⟨evs1, evs2, ran, rest, hsplit, htr1, htr2, hl1, hl2, hfor⟩ :=
              ih
                { t1 with
                  trace := t1.trace ++
                    [Event.run f
                      { type := ObActionsType.CLIENT, uact := uact, time := time, state := state,
                        x := x, y := y, context := some con1, c := some client1 } r.options] }
                { t2 with
                  trace := t2.trace ++
                    [Event.run f
                      { type := ObActionsType.CLIENT, uact := uact, time := time, state := state,
                        x := x, y := y, context := some con2, c := some client2 } r.options] }
                ha1 hd1 ha2 hd2 h1 h2
            refine ⟨(Event.run f
                { type := ObActionsType.CLIENT, uact := uact, time := time, state := state,
                  x := x, y := y, context := some con1, c := some client1 } r.options) :: evs1,
              (Event.run f
                { type := ObActionsType.CLIENT, uact := uact, time := time, state := state,
                  x := x, y := y, context := some con2, c := some client2 } r.options) :: evs2,
              a :: ran, rest, by rw [hsplit]; rfl, ?_, ?_, ?_, ?_, ?_⟩
            · rw [htr1]
              simp only [List.append_assoc, List.singleton_append]
            · rw [htr2]
              simp only [List.append_assoc, List.singleton_append]
            · simp only [List.length_cons, hl1]
            · simp only [List.length_cons, hl2]
            · rw [List.zip_cons_cons]
              refine List.Forall₂.cons ⟨r, d, f, _, _, hact, hdef, hrun, rfl, rfl, ?_⟩ hfor
              intro hg
              rw [htype] at hg
              cases hg

/-- Claim C16.  Take two calls of `actions_run_acts` from the same state that
differ only in `con` and `client`, each ending with a state.  Both made their
run calls for the same initial part `ran` of the list, one call per instance.
For every instance of `ran` whose definition has type GLOBAL the two records
are equal, and equal to the record that holds only the discriminant and
`uact`, `time`, `state`, `x`, `y`: nothing was written to its context and client
fields. -/
theorem C16_global_record_ignores_client (acts : List Ptr) (uact time state : Nat)
    (x y : Int) (con1 con2 : Nat) (client1 client2 : Option Ptr) (s s1 s2 : State)
    (h1 : actions_run_acts acts uact time state x y con1 client1 s = Outcome.ret () s1 ∨
      actions_run_acts acts uact time state x y con1 client1 s = Outcome.abort s1)
    (h2 : actions_run_acts acts uact time state x y con2 client2 s = Outcome.ret () s2 ∨
      actions_run_acts acts uact time state x y con2 client2 s = Outcome.abort s2) :
    ∃ evs1 evs2 ran rest, acts = ran ++ rest ∧ s1.trace = s.trace ++ evs1 ∧
      s2.trace = s.trace ++ evs2 ∧ evs1.length = ran.length ∧ evs2.length = ran.length ∧
      List.Forall₂
        (fun a (ee : Event × Event) => ∃ r d f data1 data2, s.acts a = some r ∧
          s.defs r.defn = some d ∧ d.run = some f ∧
          ee.1 = Event.run f data1 r.options ∧ ee.2 = Event.run f data2 r.options ∧
          (d.type = ObActionsType.GLOBAL →
            data1 = data2 ∧
            data1 = { type := ObActionsType.GLOBAL, uact := uact, time := time, state := state,
                      x := x, y := y, context := none, c := none }))
        ran (evs1.zip evs2) :=
  actions_run_acts_pair acts uact time state x y con1 con2 client1 client2 s s s s1 s2
    rfl rfl rfl rfl h1 h2

/-- The list GLOBAL, CLIENT, GLOBAL over the sample state, run once with frame
context `3` and client `50` and once with frame context `4` and no client. -/
theorem C16_global_record_ignores_client_witness :
    (actions_run_acts [0, 1, 2] 5 6 7 8 (-9) 3 (some 50) state_mixed
        = Outcome.ret () state_mixed_after ∨
      actions_run_acts [0, 1, 2] 5 6 7 8 (-9) 3 (some 50) state_mixed
        = Outcome.abort state_mixed_after) ∧
    (actions_run_acts [0, 1, 2] 5 6 7 8 (-9) 4 none state_mixed
        = Outcome.ret () state_mixed_after_alt ∨
      actions_run_acts [0, 1, 2] 5 6 7 8 (-9) 4 none state_mixed
        = Outcome.abort state_mixed_after_alt) ∧
    ∃ evs1 evs2 ran rest, [0, 1, 2] = ran ++ rest ∧
      state_mixed_after.trace = state_mixed.trace ++ evs1 ∧
      state_mixed_after_alt.trace = state_mixed.trace ++ evs2 ∧
      evs1.length = ran.length ∧ evs2.length = ran.length ∧
      List.Forall₂
        (fun a (ee : Event × Event) => ∃ r d f data1 data2, state_mixed.acts a = some r ∧
          state_mixed.defs r.defn = some d ∧ d.run = some f ∧
          ee.1 = Event.run f data1 r.options ∧ ee.2 = Event.run f data2 r.options ∧
          (d.type = ObActionsType.GLOBAL →
            data1 = data2 ∧
            data1 = { type := ObActionsType.GLOBAL, uact := 5, time := 6, state := 7,
                      x := 8, y := -9, context := none, c := none }))
        ran (evs1.zip evs2) :=
  ⟨Or.inl rfl, Or.inl rfl,
    C16_global_record_ignores_client [0, 1, 2] 5 6 7 8 (-9) 3 4 (some 50) none state_mixed
      state_mixed_after state_mixed_after_alt (Or.inl rfl) (Or.inl rfl)⟩

theorem first_with_property {α : Type} (P : α → Prop) (l : List α) (h : ∃ a ∈ l, P a) :
    ∃ pre b post, l = pre ++ b :: post ∧ P b ∧ ∀ a ∈ pre, ¬ P a := by
  induction l with
  | nil =>
    obtain ⟨a, ha, _⟩ := h
    cases ha
  | cons c it ih =>
    by_cases hc : P c
    · exact ⟨[], c, it, rfl, hc, fun a ha => absurd ha (List.not_mem_nil a)⟩
    · obtain ⟨a, ha, hPa⟩ := h
      have hit : ∃ a ∈ it, P a := by
        rcases List.mem_cons.mp ha with e | e
        · subst e
          exact absurd hPa hc
        · exact ⟨a, e, hPa⟩
      obtain ⟨pre, b, post, hsplit, hb, hpre⟩ := ih hit
      refine ⟨c :: pre, b, post, by rw [hsplit]; rfl, hb, ?_⟩
      intro a ha'
      rcases List.mem_cons.mp ha' with e | e
      · subst e
        exact hc
      · exact hpre a e

/-- When every listed instance is runnable and well typed the loop returns. -/
theorem actions_run_acts_returns (acts : List Ptr) (uact time state : Nat) (x y : Int)
    (con : Nat) (client : Option Ptr) (s : State)
    (hall : ∀ a ∈ acts, ∃ r d f, s.acts a = some r ∧ s.defs r.defn = some d ∧
      d.run = some f ∧ (d.type = ObActionsType.GLOBAL ∨ d.type = ObActionsType.CLIENT)) :
    ∃ s1, actions_run_acts acts uact time state x y con client s = Outcome.ret () s1 := by
  induction acts generalizing s with
  | nil => exact ⟨s, rfl⟩
  | cons a it ih =>
    obtain ⟨r, d, f, hact, hdef, hrun, htype⟩ := hall a (List.mem_cons_self a it)
    rcases htype with ht | ht
    · rw [actions_run_acts_cons_ret a it uact time state x y con client s _
        (run_act_global a uact time state x y con client s r d f hact hdef ht hrun)]
      exact ih _ (fun b hb => hall b (List.mem_cons_of_mem a hb))
    · rw [actions_run_acts_cons_ret a it uact time state x y con client s _
        (run_act_client a uact time state x y con client s r d f hact hdef ht hrun)]
      exact ih _ (fun b hb => hall b (List.mem_cons_of_mem a hb))

/-- The loop stops at the first ill-typed instance, after running those before it. -/
theorem actions_run_acts_stops (pre : List Ptr) (bad : Ptr) (post : List Ptr)
    (uact time state : Nat) (x y : Int) (con : Nat) (client : Option Ptr) (s : State)
    (hpre : ∀ a ∈ pre, ∃ r d f, s.acts a = some r ∧ s.defs r.defn = some d ∧
      d.run = some f ∧ (d.type = ObActionsType.GLOBAL ∨ d.type = ObActionsType.CLIENT))
    (hbad : ∃ r d, s.acts bad = some r ∧ s.defs r.defn = some d ∧
      d.type ≠ ObActionsType.GLOBAL ∧ d.type ≠ ObActionsType.CLIENT) :
    ∃ t evs, actions_run_acts (pre ++ bad :: post) uact time state x y con client s
        = Outcome.abort t ∧
      t.trace = s.trace ++ evs ∧ t.defs = s.defs ∧ t.acts = s.acts ∧
      List.Forall₂
        (fun a e => ∃ r d f data, s.acts a = some r ∧ s.defs r.defn = some d ∧
          d.run = some f ∧ e = Event.run f data r.options)
        pre evs := by
  induction pre generalizing s with
  | nil =>
    obtain ⟨r, d, hact, hdef, hng, hnc⟩ := hbad
    cases htype : d.type with
    | GLOBAL => exact absurd htype hng
    | CLIENT => exact absurd htype hnc
    | other raw =>
      refine ⟨s, [], ?_, (List.append_nil _).symm, rfl, rfl, List.Forall₂.nil⟩
      exact actions_run_acts_cons_abort bad post uact time state x y con client s
        (run_act_other bad uact time state x y con client s r d raw hact hdef htype)
  | cons a it ih =>
    obtain ⟨r, d, f, hact, hdef, hrun, htype⟩ := hpre a (List.mem_cons_self a it)
    rcases htype with ht | ht
    · obtain ⟨t, evs, hrun1, htr, hd, ha, hfor⟩ :=
        ih
          { s with
            trace := s.trace ++
              [Event.run f
                { type := ObActionsType.GLOBAL, uact := uact, time := time, state := state,
                  x := x, y := y, context := none, c := none } r.options] }
          (fun b hb => hpre b (List.mem_cons_of_mem a hb)) hbad
      refine ⟨t,
        (Event.run f
          { type := ObActionsType.GLOBAL, uact := uact, time := time, state := state,
            x := x, y := y, context := none, c := none } r.options) :: evs, ?_, ?_, hd, ha, ?_⟩
      · rw [List.cons_append, actions_run_acts_cons_ret a (it ++ bad :: post) uact time state
          x y con client s _
          (run_act_global a uact time state x y con client s r d f hact hdef ht hrun)]
        exact hrun1
      · rw [htr]
        simp only [List.append_assoc, List.singleton_append]
      · exact List.Forall₂.cons ⟨r, d, f, _, hact, hdef, hrun, rfl⟩ hfor
    · obtain ⟨t, evs, hrun1, htr, hd, ha, hfor⟩ :=
        ih
          { s with
            trace := s.trace ++
              [Event.run f
                { type := ObActionsType.CLIENT, uact := uact, time := time, state := state,
                  x := x, y := y, context := some con, c := some client } r.options] }
          (fun b hb => hpre b (List.mem_cons_of_mem a hb)) hbad
      refine ⟨t,
        (Event.run f
          { type := ObActionsType.CLIENT, uact := uact, time := time, state := state,
            x := x, y := y, context := some con, c := some client } r.options) :: evs,
        ?_, ?_, hd, ha, ?_⟩
      · rw [List.cons_append, actions_run_acts_cons_ret a (it ++ bad :: post) uact time state
          x y con client s _
          (run_act_client a uact time state x y con client s r d f hact hdef ht hrun)]
        exact hrun1
      · rw [htr]
        simp only [List.append_assoc, List.singleton_append]
      · exact List.Forall₂.cons ⟨r, d, f, _, hact, hdef, hrun, rfl⟩ hfor

/-- Claim C17.  Let every listed instance be live and bound to a live definition
with a non-NULL run callback.  Then `actions_run_acts` ends in the fatal default
branch exactly when some listed instance has a definition type that is neither
GLOBAL nor CLIENT.  In that case the list splits at the first such instance
`bad`: the trace has grown by exactly one run call for each instance before
`bad`, in order, and by nothing else, so the run callbacks of `bad` and of the
instances after it were not called. -/
theorem C17_fatal_branch_iff (acts : List Ptr) (uact time state : Nat) (x y : Int)
    (con : Nat) (client : Option Ptr) (s : State)
    (hlive : ∀ a ∈ acts, ∃ r d f, s.acts a = some r ∧ s.defs r.defn = some d ∧
      d.run = some f) :
    ((∃ t, actions_run_acts acts uact time state x y con client s = Outcome.abort t) ↔
      ∃ a ∈ acts, ∃ r d, s.acts a = some r ∧ s.defs r.defn = some d ∧
        d.type ≠ ObActionsType.GLOBAL ∧ d.type ≠ ObActionsType.CLIENT) ∧
    (∀ t, actions_run_acts acts uact time state x y con client s = Outcome.abort t →
      ∃ pre bad post evs, acts = pre ++ bad :: post ∧
        (∀ a ∈ pre, ∃ r d, s.acts a = some r ∧ s.defs r.defn = some d ∧
          (d.type = ObActionsType.GLOBAL ∨ d.type = ObActionsType.CLIENT)) ∧
        (∃ r d, s.acts bad = some r ∧ s.defs r.defn = some d ∧
          d.type ≠ ObActionsType.GLOBAL ∧ d.type ≠ ObActionsType.CLIENT) ∧
        t.trace = s.trace ++ evs ∧ t.defs = s.defs ∧ t.acts = s.acts ∧
        List.Forall₂
          (fun a e => ∃ r d f data, s.acts a = some r ∧ s.defs r.defn = some d ∧
            d.run = some f ∧ e = Event.run f data r.options)
          pre evs) := by
  have good_of_not_bad : ∀ a ∈ acts,
      (¬ ∃ r d, s.acts a = some r ∧ s.defs r.defn = some d ∧
        d.type ≠ ObActionsType.GLOBAL ∧ d.type ≠ ObActionsType.CLIENT) →
      ∃ r d f, s.acts a = some r ∧ s.defs r.defn = some d ∧ d.run = some f ∧
        (d.type = ObActionsType.GLOBAL ∨ d.type = ObActionsType.CLIENT) := by
    intro a ha hnb
    obtain ⟨r, d, f, hact, hdef, hrun⟩ := hlive a ha
    refine ⟨r, d, f, hact, hdef, hrun, ?_⟩
    by_contra hty
    exact hnb ⟨r, d, hact, hdef, fun h => hty (Or.inl h), fun h => hty (Or.inr h)⟩
  have split_of_bad : (∃ a ∈ acts, ∃ r d, s.acts a = some r ∧ s.defs r.defn = some d ∧
        d.type ≠ ObActionsType.GLOBAL ∧ d.type ≠ ObActionsType.CLIENT) →
      ∃ pre bad post t evs, acts = pre ++ bad :: post ∧
        (∀ a ∈ pre, ∃ r d, s.acts a = some r ∧ s.defs r.defn = some d ∧
          (d.type = ObActionsType.GLOBAL ∨ d.type = ObActionsType.CLIENT)) ∧
        (∃ r d, s.acts bad = some r ∧ s.defs r.defn = some d ∧
          d.type ≠ ObActionsType.GLOBAL ∧ d.type ≠ ObActionsType.CLIENT) ∧
        actions_run_acts acts uact time state x y con client s = Outcome.abort t ∧
        t.trace = s.trace ++ evs ∧ t.defs = s.defs ∧ t.acts = s.acts ∧
        List.Forall₂
          (fun a e => ∃ r d f data, s.acts a = some r ∧ s.defs r.defn = some d ∧
            d.run = some f ∧ e = Event.run f data r.options)
          pre evs := by
    intro hex
    obtain ⟨pre, bad, post, hsplit, hbad, hpre⟩ := first_with_property
      (fun a => ∃ r d, s.acts a = some r ∧ s.defs r.defn = some d ∧
        d.type ≠ ObActionsType.GLOBAL ∧ d.type ≠ ObActionsType.CLIENT) acts hex
    have hgood : ∀ a ∈ pre, ∃ r d f, s.acts a = some r ∧ s.defs r.defn = some d ∧
        d.run = some f ∧ (d.type = ObActionsType.GLOBAL ∨ d.type = ObActionsType.CLIENT) :=
      fun a ha => good_of_not_bad a (by rw [hsplit]; exact List.mem_append_left _ ha)
        (hpre a ha)
    obtain ⟨t, evs, hrun, htr, hd, ha, hfor⟩ :=
      actions_run_acts_stops pre bad post uact time state x y con client s hgood hbad
    refine ⟨pre, bad, post, t, evs, hsplit, ?_, hbad, by rw [hsplit]; exact hrun, htr, hd, ha,
      hfor⟩
    intro a ha'
    obtain ⟨r, d, _, hact, hdef, _, hty⟩ := hgood a ha'
    exact ⟨r, d, hact, hdef, hty⟩
  constructor
  · constructor
    · rintro ⟨t, ht⟩
      by_contra hnone
      obtain ⟨s1, hret⟩ := actions_run_acts_returns acts uact time state x y con client s
        (fun a ha => good_of_not_bad a ha (fun hb => hnone ⟨a, ha, hb⟩))
      rw [hret] at ht
      cases ht
    · intro hex
      obtain ⟨_, _, _, t, _, _, _, _, hrun, _⟩ := split_of_bad hex
      exact ⟨t, hrun⟩
  · intro t ht
    have hex : ∃ a ∈ acts, ∃ r d, s.acts a = some r ∧ s.defs r.defn = some d ∧
        d.type ≠ ObActionsType.GLOBAL ∧ d.type ≠ ObActionsType.CLIENT := by
      by_contra hnone
      obtain ⟨s1, hret⟩ := actions_run_acts_returns acts uact time state x y con client s
        (fun a ha => good_of_not_bad a ha (fun hb => hnone ⟨a, ha, hb⟩))
      rw [hret] at ht
      cases ht
    obtain ⟨pre, bad, post, t1, evs, hsplit, hpre, hbad, hrun, htr, hd, ha, hfor⟩ :=
      split_of_bad hex
    rw [hrun] at ht
    cases ht
    exact ⟨pre, bad, post, evs, hsplit, hpre, hbad, htr, hd, ha, hfor⟩

theorem state_bad_all_live :
    ∀ a ∈ [0, 1, 2], ∃ r d f, state_bad.acts a = some r ∧ state_bad.defs r.defn = some d ∧
      d.run = some f := by
  intro a ha
  simp only [List.mem_cons, List.mem_singleton, List.not_mem_nil, or_false] at ha
  rcases ha with rfl | rfl | rfl
  · exact ⟨_, _, _, rfl, rfl, rfl⟩
  · exact ⟨_, _, _, rfl, rfl, rfl⟩
  · exact ⟨_, _, _, rfl, rfl, rfl⟩

/-- The list CLIENT, ill-typed, CLIENT over the sample state: the call stops at
the second instance. -/
theorem C17_fatal_branch_iff_witness :
    (∀ a ∈ [0, 1, 2], ∃ r d f, state_bad.acts a = some r ∧ state_bad.defs r.defn = some d ∧
      d.run = some f) ∧
    actions_run_acts [0, 1, 2] 5 6 7 8 (-9) 3 (some 50) state_bad
      = Outcome.abort { state_bad with trace := [Event.run 12 data_client (some 41)] } ∧
    ((∃ t, actions_run_acts [0, 1, 2] 5 6 7 8 (-9) 3 (some 50) state_bad = Outcome.abort t) ↔
      ∃ a ∈ [0, 1, 2], ∃ r d, state_bad.acts a = some r ∧ state_bad.defs r.defn = some d ∧
        d.type ≠ ObActionsType.GLOBAL ∧ d.type ≠ ObActionsType.CLIENT) ∧
    (∀ t, actions_run_acts [0, 1, 2] 5 6 7 8 (-9) 3 (some 50) state_bad = Outcome.abort t →
      ∃ pre bad post evs, [0, 1, 2] = pre ++ bad :: post ∧
        (∀ a ∈ pre, ∃ r d, state_bad.acts a = some r ∧ state_bad.defs r.defn = some d ∧
          (d.type = ObActionsType.GLOBAL ∨ d.type = ObActionsType.CLIENT)) ∧
        (∃ r d, state_bad.acts bad = some r ∧ state_bad.defs r.defn = some d ∧
          d.type ≠ ObActionsType.GLOBAL ∧ d.type ≠ ObActionsType.CLIENT) ∧
        t.trace = state_bad.trace ++ evs ∧ t.defs = state_bad.defs ∧
        t.acts = state_bad.acts ∧
        List.Forall₂
          (fun a e => ∃ r d f data, state_bad.acts a = some r ∧
            state_bad.defs r.defn = some d ∧ d.run = some f ∧ e = Event.run f data r.options)
          pre evs) :=
  ⟨state_bad_all_live, rfl,
    C17_fatal_branch_iff [0, 1, 2] 5 6 7 8 (-9) 3 (some 50) state_bad state_bad_all_live⟩

/-! ## Registration and lookup in reachable states -/

/-- In a reachable state a registration that passes the assertion returns TRUE
and allocates the new definition. -/
theorem actions_register_reachable (s : State) (h : Reachable s) (name : List Char)
    (type : ObActionsType) (setup free run i_input i_cancel : Option Ptr)
    (hic : i_input.isNone = i_cancel.isNone) :
    actions_register name type setup free run i_input i_cancel s
      = Outcome.ret true
          { s with
            defs := Function.update s.defs s.nextDef
              (some { ref := 1, name := name, type := type, setup := setup, free := free,
                      run := run, i_input := i_input, i_cancel := i_cancel })
            nextDef := s.nextDef + 1 } :=
  actions_register_fresh name type setup free run i_input i_cancel s
    (Reachable.registered_nil s h) hic

/-- In a reachable state a registration that fails the assertion aborts. -/
theorem actions_register_reachable_abort (s : State) (h : Reachable s) (name : List Char)
    (type : ObActionsType) (setup free run i_input i_cancel : Option Ptr)
    (hic : ¬ i_input.isNone = i_cancel.isNone) :
    actions_register name type setup free run i_input i_cancel s = Outcome.abort s := by
  unfold actions_register
  rw [Reachable.registered_nil s h]
  simp only [register_scan, hic, if_false]

/-- In a reachable state `actions_shutdown` finds nothing to release. -/
theorem actions_shutdown_reachable (s : State) (h : Reachable s) (reconfig : Bool) :
    actions_shutdown reconfig s = Outcome.ret () s := by
  have hempty := Reachable.registered_nil s h
  cases reconfig with
  | true => rfl
  | false =>
    unfold actions_shutdown
    simp only [Bool.false_eq_true, if_false]
    rw [hempty, shutdown_loop, ← hempty]

/-- Claim C2 (the code departs from it).  In every reachable state the list that
`actions_register` searches is empty, whatever registrations returned TRUE
before.  The call therefore never returns FALSE; when it passes the assertion
it returns TRUE and allocates one more definition, so the state is not left
unchanged. -/
theorem C2_duplicate_not_rejected (s : State) (h : Reachable s) (name : List Char)
    (type : ObActionsType) (setup free run i_input i_cancel : Option Ptr) :
    (∀ s1, actions_register name type setup free run i_input i_cancel s
      ≠ Outcome.ret false s1) ∧
    (i_input.isNone = i_cancel.isNone →
      actions_register name type setup free run i_input i_cancel s
        = Outcome.ret true
            { s with
              defs := Function.update s.defs s.nextDef
                (some { ref := 1, name := name, type := type, setup := setup, free := free,
                        run := run, i_input := i_input, i_cancel := i_cancel })
              nextDef := s.nextDef + 1 }) := by
  constructor
  · intro s1 hfalse
    by_cases hic : i_input.isNone = i_cancel.isNone
    · rw [actions_register_reachable s h name type setup free run i_input i_cancel hic]
        at hfalse
      cases hfalse
    · rw [actions_register_reachable_abort s h name type setup free run i_input i_cancel hic]
        at hfalse
      cases hfalse
  · exact actions_register_reachable s h name type setup free run i_input i_cancel

/-- After `a` was registered with result TRUE, registering `A`. -/
theorem C2_duplicate_not_rejected_witness :
    Reachable state_leaked ∧ state_leaked.defs 0 = some def_a ∧
    g_ascii_strcasecmp ['A'] def_a.name = 0 ∧
    (∀ s1, actions_register ['A'] ObActionsType.GLOBAL (some 20) (some 21) (some 22) none none
      state_leaked ≠ Outcome.ret false s1) ∧
    ((none : Option Ptr).isNone = (none : Option Ptr).isNone →
      actions_register ['A'] ObActionsType.GLOBAL (some 20) (some 21) (some 22) none none
        state_leaked
        = Outcome.ret true
            { state_leaked with
              defs := Function.update state_leaked.defs state_leaked.nextDef
                (some { ref := 1, name := ['A'], type := ObActionsType.GLOBAL, setup := some 20,
                        free := some 21, run := some 22, i_input := none, i_cancel := none })
              nextDef := state_leaked.nextDef + 1 }) :=
  ⟨state_leaked_reachable, rfl, by decide,
    C2_duplicate_not_rejected state_leaked state_leaked_reachable ['A'] ObActionsType.GLOBAL
      (some 20) (some 21) (some 22) none none⟩

/-- Claim C3.  In every reachable state, for every name and every other argument:
when exactly one of `i_input` and `i_cancel` is NULL, `actions_register` ends in
the fatal assertion, in the state it was entered in, and returns neither TRUE
nor FALSE; when both are NULL or both are non-NULL the assertion does not fire
and the call returns TRUE. -/
theorem C3_assertion_on_mismatch (s : State) (h : Reachable s) (name : List Char)
    (type : ObActionsType) (setup free run i_input i_cancel : Option Ptr) :
    (((i_input = none ∧ i_cancel ≠ none) ∨ (i_input ≠ none ∧ i_cancel = none)) →
      actions_register name type setup free run i_input i_cancel s = Outcome.abort s) ∧
    (((i_input = none ∧ i_cancel = none) ∨ (i_input ≠ none ∧ i_cancel ≠ none)) →
      ∃ s1, actions_register name type setup free run i_input i_cancel s
        = Outcome.ret true s1) := by
  constructor
  · intro hone
    apply actions_register_reachable_abort s h
    rcases hone with ⟨h1, h2⟩ | ⟨h1, h2⟩
    · subst h1
      cases i_cancel with
      | none => exact absurd rfl h2
      | some c => simp
    · subst h2
      cases i_input with
      | none => exact absurd rfl h1
      | some c => simp
  · intro hboth
    refine ⟨_, actions_register_reachable s h name type setup free run i_input i_cancel ?_⟩
    rcases hboth with ⟨h1, h2⟩ | ⟨h1, h2⟩
    · subst h1 h2
      rfl
    · cases i_input with
      | none => exact absurd rfl h1
      | some c =>
        cases i_cancel with
        | none => exact absurd rfl h2
        | some c2 => rfl

/-- Registering `b` with only `i_input` set, after one earlier registration. -/
theorem C3_assertion_on_mismatch_witness :
    Reachable state_leaked ∧
    ((((some 7 : Option Ptr) = none ∧ (none : Option Ptr) ≠ none) ∨
        ((some 7 : Option Ptr) ≠ none ∧ (none : Option Ptr) = none)) →
      actions_register ['b'] ObActionsType.GLOBAL (some 20) (some 21) (some 22) (some 7) none
        state_leaked = Outcome.abort state_leaked) ∧
    ((((some 7 : Option Ptr) = none ∧ (none : Option Ptr) = none) ∨
        ((some 7 : Option Ptr) ≠ none ∧ (none : Option Ptr) ≠ none)) →
      ∃ s1, actions_register ['b'] ObActionsType.GLOBAL (some 20) (some 21) (some 22) (some 7)
        none state_leaked = Outcome.ret true s1) :=
  ⟨state_leaked_reachable,
    C3_assertion_on_mismatch state_leaked state_leaked_reachable ['b'] ObActionsType.GLOBAL
      (some 20) (some 21) (some 22) (some 7) none⟩

/-- Claim C5 (the code departs from it).  In every reachable state the registry
is empty, so for a node with a `name` attribute the search of
`actions_parse_string` finds no definition, whatever was registered before:
with the local `def` reading as NULL, `actions_parse` returns no instance, the
trace gains only the invalid-action diagnostic, and no setup callback is
called. -/
theorem C5_registered_name_not_found (s : State) (h : Reachable s)
    (setup_ret : Ptr → Ptr → Ptr → Ptr → Option Ptr) (i doc : Ptr) (node : XmlNode)
    (name : List Char) (hnode : node.name_attr = some name) :
    actions_parse setup_ret none i doc node s
      = Outcome.ret none { s with trace := s.trace ++ [Event.message name] } := by
  unfold actions_parse
  simp only [parse_attr_string_name, hnode,
    actions_parse_string_empty_null name s (Reachable.registered_nil s h), Outcome.bind]

/-- After `a` was registered with result TRUE and setup callback `10`, parsing
`<action name="A"/>`. -/
theorem C5_registered_name_not_found_witness :
    actions_register ['a'] ObActionsType.CLIENT (some 10) (some 11) (some 12) none none
      State.init = Outcome.ret true state_leaked ∧
    Reachable state_leaked ∧ node_A.name_attr = some ['A'] ∧
    g_ascii_strcasecmp ['A'] ['a'] = 0 ∧
    actions_parse setup_const none 1 2 node_A state_leaked
      = Outcome.ret none
          { state_leaked with trace := state_leaked.trace ++ [Event.message ['A']] } :=
  ⟨rfl, state_leaked_reachable, rfl, by decide,
    C5_registered_name_not_found state_leaked state_leaked_reachable setup_const 1 2 node_A
      ['A'] rfl⟩

/-- Claim C11 (the code departs from it).  Register `a` from the initial state:
the call returns TRUE and the registry stays empty.  `actions_shutdown(FALSE)`
then finds nothing to release: the definition keeps the reference count 1 it
was created with.  In the lookup that follows, the loop of
`actions_parse_string` never assigns the local `def`, which has no
initialiser; when it holds the address of that definition the lookup of `a`
returns an instance bound to it and emits no diagnostic. -/
theorem C11_shutdown_after_registration :
    actions_register ['a'] ObActionsType.CLIENT (some 10) (some 11) (some 12) none none
      State.init = Outcome.ret true state_leaked ∧
    actions_shutdown false state_leaked = Outcome.ret () state_leaked ∧
    state_leaked.defs 0 = some def_a ∧ def_a.ref = 1 ∧
    ∃ s2, actions_parse_string (some 0) ['a'] state_leaked = Outcome.ret (some 0) s2 ∧
      s2.acts 0 = some { ref := 1, defn := 0, options := none } ∧ s2.trace = [] :=
  ⟨rfl, rfl, rfl, rfl, ⟨_, rfl, rfl, rfl⟩⟩

/-! ## Release of parsed instances -/

/-- What a lookup that returns an instance has done. -/
theorem actions_parse_string_some (junk : Option Ptr) (name : List Char) (a : Ptr)
    (s s1 : State) (h : actions_parse_string junk name s = Outcome.ret (some a) s1) :
    ∃ p d, s.defs p = some d ∧ a = s.nextAct ∧
      s1 = { defs := Function.update s.defs p (some { d with ref := (d.ref + 1) % GUINT_MOD })
             acts := Function.update s.acts s.nextAct
               (some { ref := 1, defn := p, options := none })
             registered := s.registered
             nextDef := s.nextDef
             nextAct := s.nextAct + 1
             trace := s.trace } := by
  unfold actions_parse_string at h
  split at h
  · cases h
  · rename_i p _
    obtain ⟨u, t, hret, hk⟩ := Outcome.bind_eq_ret _ _ _ _ h
    cases hk
    unfold actions_definition_ref at hret
    split at hret
    · cases hret
    · rename_i d hd
      cases hret
      exact ⟨p, d, hd, rfl, rfl⟩
  · cases h

/-- What a parse that returns an instance has done. -/
theorem actions_parse_some (setup_ret : Ptr → Ptr → Ptr → Ptr → Option Ptr)
    (junk : Option Ptr) (i doc : Ptr) (node : XmlNode) (a : Ptr) (s s1 : State)
    (h : actions_parse setup_ret junk i doc node s = Outcome.ret (some a) s1) :
    ∃ p d f, s.defs p = some d ∧ d.setup = some f ∧ a = s.nextAct ∧
      s1 = { defs := Function.update s.defs p (some { d with ref := (d.ref + 1) % GUINT_MOD })
             acts := Function.update s.acts s.nextAct
               (some { ref := 1, defn := p, options := setup_ret f i doc node.children })
             registered := s.registered
             nextDef := s.nextDef
             nextAct := s.nextAct + 1
             trace := s.trace ++ [Event.setup f i doc node.children] } := by
  unfold actions_parse at h
  split at h
  · obtain ⟨u, t, hret, hk⟩ := Outcome.bind_eq_ret _ _ _ _ h
    cases u with
    | none =>
      simp only at hk
      cases hk
    | some a1 =>
      obtain ⟨p, d, hd, ha1, ht⟩ := actions_parse_string_some _ _ _ _ _ hret
      subst ha1 ht
      simp only [Function.update_same] at hk
      cases hsetup : d.setup with
      | none =>
        simp only [hsetup] at hk
        cases hk
      | some f =>
        simp only [hsetup, Function.update_idem] at hk
        cases hk
        exact ⟨p, d, f, hd, hsetup, rfl, by simp only [hsetup]⟩
  · cases h

theorem actions_act_unref_call_state_last (a : Ptr) (s : State) (r : ObActionsAct)
    (d : ObActionsDefinition) (f : Ptr)
    (hact : s.acts a = some r) (hdec : (r.ref + GUINT_MOD - 1) % GUINT_MOD = 0)
    (hdef : s.defs r.defn = some d) (hfree : d.free = some f) :
    actions_act_unref_call_state (some a) s
      = Outcome.ret
          (some { s with
                  acts := Function.update s.acts a (some { r with ref := 0 })
                  trace := s.trace ++ [Event.free f r.options] })
          { s with
            acts := Function.update s.acts a none
            defs := Function.update s.defs r.defn
              (if (d.ref + GUINT_MOD - 1) % GUINT_MOD = 0 then none
               else some { d with ref := (d.ref + GUINT_MOD - 1) % GUINT_MOD })
            trace := s.trace ++ [Event.free f r.options] } := by
  have hunref := actions_definition_unref_live r.defn
    { s with
      acts := Function.update s.acts a (some { r with ref := 0 })
      trace := s.trace ++ [Event.free f r.options] } d hdef
  unfold actions_act_unref_call_state
  simp only [hact, hdec, if_true, hdef, hfree, hunref, Outcome.bind, Function.update_idem]

/-- An instance holding one reference, referenced `N - 1` more times and released
`N - 1` times, holds one reference again; the next release enters the free
callback before the definition is released. -/
theorem release_call_state (a : Ptr) (s : State) (r : ObActionsAct)
    (d : ObActionsDefinition) (g : Ptr) (N : Nat) (hact : s.acts a = some r)
    (href : r.ref = 1) (hdef : s.defs r.defn = some d) (hfree : d.free = some g)
    (hN : 1 ≤ N) (hmax : N ≤ GUINT_MOD) :
    ∃ s2 mid s3,
      (act_ref_times (N - 1) a s).bind (fun _ t => act_unref_times (N - 1) a t)
        = Outcome.ret () s2 ∧
      actions_act_unref_call_state (some a) s2 = Outcome.ret (some mid) s3 ∧
      actions_act_unref (some a) s2 = Outcome.ret () s3 ∧
      mid.trace = s.trace ++ [Event.free g r.options] ∧ mid.defs = s.defs ∧
      s3.trace = mid.trace ∧
      s3.defs = Function.update s.defs r.defn
        (if (d.ref + GUINT_MOD - 1) % GUINT_MOD = 0 then none
         else some { d with ref := (d.ref + GUINT_MOD - 1) % GUINT_MOD }) ∧
      s3.acts a = none := by
  have hlt : r.ref < GUINT_MOD := by rw [href]; unfold GUINT_MOD; omega
  have hcount : (r.ref + (N - 1)) % GUINT_MOD = N % GUINT_MOD := by
    rw [href]
    congr 1
    omega
  have hbelow := act_unref_times_below a (N - 1)
    { s with acts := Function.update s.acts a (some { r with ref := N % GUINT_MOD }) }
    { r with ref := N % GUINT_MOD } N (Function.update_same a _ s.acts) rfl hmax (by omega)
  have hone : (N - (N - 1)) % GUINT_MOD = 1 := by
    unfold GUINT_MOD
    omega
  have hseq : (act_ref_times (N - 1) a s).bind (fun _ t => act_unref_times (N - 1) a t)
      = Outcome.ret () { s with acts := Function.update s.acts a (some { r with ref := 1 }) } := by
    rw [act_ref_times_eq a (N - 1) s r hact hlt, hcount]
    simp only [Outcome.bind]
    rw [hbelow]
    simp only [Function.update_idem, hone]
  have hlast := actions_act_unref_call_state_last a
    { s with acts := Function.update s.acts a (some { r with ref := 1 }) }
    { r with ref := 1 } d g (Function.update_same a _ s.acts)
    (by show (1 + GUINT_MOD - 1) % GUINT_MOD = 0; unfold GUINT_MOD; omega) hdef hfree
  refine ⟨_, _, _, hseq, hlast, ?_, rfl, rfl, rfl, ?_, ?_⟩
  · unfold actions_act_unref
    rw [hlast]
    rfl
  · simp only [Function.update_idem]
  · simp only [Function.update_same]


theorem actions_parse_empty_stale (setup_ret : Ptr → Ptr → Ptr → Ptr → Option Ptr)
    (i doc : Ptr) (node : XmlNode) (name : List Char) (p f : Ptr) (d : ObActionsDefinition)
    (s : State) (hempty : s.registered = []) (hnode : node.name_attr = some name)
    (hd : s.defs p = some d) (hsetup : d.setup = some f) :
    actions_parse setup_ret (some p) i doc node s
      = Outcome.ret (some s.nextAct)
          { defs := Function.update s.defs p (some { d with ref := (d.ref + 1) % GUINT_MOD })
            acts := Function.update s.acts s.nextAct
              (some { ref := 1, defn := p, options := setup_ret f i doc node.children })
            registered := s.registered
            nextDef := s.nextDef
            nextAct := s.nextAct + 1
            trace := s.trace ++ [Event.setup f i doc node.children] } := by
  simp only [actions_parse, parse_attr_string_name, hnode,
    actions_parse_string_empty_stale p d name s hempty hd, Outcome.bind, Function.update_same,
    hsetup, Function.update_idem]

theorem state_parsed_from_leaked :
    actions_parse setup_const (some 0) 1 2 node_A state_leaked
      = Outcome.ret (some 0) state_parsed :=
  actions_parse_empty_stale setup_const 1 2 node_A ['A'] 0 10 def_a state_leaked rfl rfl rfl rfl

theorem state_looked_up_from_leaked :
    actions_parse_string (some 0) ['A'] state_leaked = Outcome.ret (some 0) state_looked_up :=
  actions_parse_string_empty_stale 0 def_a ['A'] state_leaked rfl rfl

/-- Claim C15.  Take any instance `a` returned by `actions_parse` and any
instance `a2` returned by `actions_parse_string` alone, each bound to a live
definition with a free callback (`g`, `g2`), and `1 ≤ N ≤ 2 ^ 32`.  The parse
called the setup callback `f` of the bound definition once and stored its
result as the options of `a`; the lookup stored NULL.  After `N - 1` further
references and `N - 1` releases the next `actions_act_unref` brings the count to
zero: it enters the free callback with exactly the value `f` returned (with
NULL for `a2`), in a state `mid` whose definitions, reference counts included,
are those the parse left; only the state it returns has the definition's count
decremented (the definition released when that reaches zero), and the instance
is gone. -/
theorem C15_free_gets_setup_value (setup_ret : Ptr → Ptr → Ptr → Ptr → Option Ptr)
    (junk junk2 : Option Ptr) (i doc : Ptr) (node : XmlNode) (name : List Char) (a a2 : Ptr)
    (s s1 t t1 : State) (r r2 : ObActionsAct) (d d2 : ObActionsDefinition) (g g2 : Ptr)
    (N : Nat)
    (hparse : actions_parse setup_ret junk i doc node s = Outcome.ret (some a) s1)
    (hact : s1.acts a = some r) (hdef : s1.defs r.defn = some d) (hfree : d.free = some g)
    (hlookup : actions_parse_string junk2 name t = Outcome.ret (some a2) t1)
    (hact2 : t1.acts a2 = some r2) (hdef2 : t1.defs r2.defn = some d2)
    (hfree2 : d2.free = some g2) (hN : 1 ≤ N) (hmax : N ≤ 2 ^ 32) :
    (∃ f, d.setup = some f ∧ r.ref = 1 ∧ r.options = setup_ret f i doc node.children ∧
      s1.trace = s.trace ++ [Event.setup f i doc node.children] ∧
      ∃ s2 mid s3,
        (act_ref_times (N - 1) a s1).bind (fun _ u => act_unref_times (N - 1) a u)
          = Outcome.ret () s2 ∧
        actions_act_unref_call_state (some a) s2 = Outcome.ret (some mid) s3 ∧
        actions_act_unref (some a) s2 = Outcome.ret () s3 ∧
        mid.trace = s1.trace ++ [Event.free g (setup_ret f i doc node.children)] ∧
        mid.defs = s1.defs ∧ s3.trace = mid.trace ∧
        s3.defs = Function.update s1.defs r.defn
          (if (d.ref + GUINT_MOD - 1) % GUINT_MOD = 0 then none
           else some { d with ref := (d.ref + GUINT_MOD - 1) % GUINT_MOD }) ∧
        s3.acts a = none) ∧
    (r2.ref = 1 ∧ r2.options = none ∧ t1.trace = t.trace ∧
      ∃ t2 mid t3,
        (act_ref_times (N - 1) a2 t1).bind (fun _ u => act_unref_times (N - 1) a2 u)
          = Outcome.ret () t2 ∧
        actions_act_unref_call_state (some a2) t2 = Outcome.ret (some mid) t3 ∧
        actions_act_unref (some a2) t2 = Outcome.ret () t3 ∧
        mid.trace = t1.trace ++ [Event.free g2 none] ∧
        mid.defs = t1.defs ∧ t3.trace = mid.trace ∧
        t3.defs = Function.update t1.defs r2.defn
          (if (d2.ref + GUINT_MOD - 1) % GUINT_MOD = 0 then none
           else some { d2 with ref := (d2.ref + GUINT_MOD - 1) % GUINT_MOD }) ∧
        t3.acts a2 = none) := by
  have hmax1 : N ≤ GUINT_MOD := by unfold GUINT_MOD; norm_num at hmax; exact hmax
  constructor
  · obtain ⟨p, d0, f, hd0, hsetup, ha, hs1⟩ := actions_parse_some _ _ _ _ _ _ _ _ hparse
    subst ha
    have hr : r = { ref := 1, defn := p, options := setup_ret f i doc node.children } := by
      rw [hs1] at hact
      simp only [Function.update_same, Option.some.injEq] at hact
      exact hact.symm
    have hopt : r.options = setup_ret f i doc node.children := by rw [hr]
    have hd : d = { d0 with ref := (d0.ref + 1) % GUINT_MOD } := by
      rw [hs1, hr] at hdef
      simp only [Function.update_same, Option.some.injEq] at hdef
      exact hdef.symm
    have htrace : s1.trace = s.trace ++ [Event.setup f i doc node.children] := by rw [hs1]
    refine ⟨f, by rw [hd]; exact hsetup, by rw [hr], hopt, htrace, ?_⟩
    rw [← hopt]
    exact release_call_state s.nextAct s1 r d g N hact (by rw [hr]) hdef hfree hN hmax1
  · obtain ⟨p, d0, hd0, ha, ht1⟩ := actions_parse_string_some _ _ _ _ _ hlookup
    subst ha
    have hr : r2 = { ref := 1, defn := p, options := none } := by
      rw [ht1] at hact2
      simp only [Function.update_same, Option.some.injEq] at hact2
      exact hact2.symm
    have hopt : r2.options = none := by rw [hr]
    have htrace : t1.trace = t.trace := by rw [ht1]
    refine ⟨by rw [hr], hopt, htrace, ?_⟩
    rw [← hopt]
    exact release_call_state t.nextAct t1 r2 d2 g2 N hact2 (by rw [hr]) hdef2 hfree2 hN hmax1

/-- After `a` was registered, `<action name="A"/>` is parsed and `A` is looked up
by name while the local `def` of the lookup holds the address of the new
definition; each instance is referenced once more and released twice. -/
theorem C15_free_gets_setup_value_witness :
    actions_parse setup_const (some 0) 1 2 node_A state_leaked
      = Outcome.ret (some 0) state_parsed ∧
    state_parsed.acts 0 = some { ref := 1, defn := 0, options := some 40 } ∧
    state_parsed.defs 0 = some { def_a with ref := 2 } ∧ def_a.free = some 11 ∧
    actions_parse_string (some 0) ['A'] state_leaked = Outcome.ret (some 0) state_looked_up ∧
    state_looked_up.acts 0 = some { ref := 1, defn := 0, options := none } ∧
    state_looked_up.defs 0 = some { def_a with ref := 2 } ∧ 1 ≤ 2 ∧ 2 ≤ 2 ^ 32 ∧
    (∃ f, def_a.setup = some f ∧ (1 : Nat) = 1 ∧ some 40 = setup_const f 1 2 node_A.children ∧
      state_parsed.trace = state_leaked.trace ++ [Event.setup f 1 2 node_A.children] ∧
      ∃ s2 mid s3,
        (act_ref_times (2 - 1) 0 state_parsed).bind (fun _ u => act_unref_times (2 - 1) 0 u)
          = Outcome.ret () s2 ∧
        actions_act_unref_call_state (some 0) s2 = Outcome.ret (some mid) s3 ∧
        actions_act_unref (some 0) s2 = Outcome.ret () s3 ∧
        mid.trace = state_parsed.trace ++ [Event.free 11 (setup_const f 1 2 node_A.children)] ∧
        mid.defs = state_parsed.defs ∧ s3.trace = mid.trace ∧
        s3.defs = Function.update state_parsed.defs 0
          (if (2 + GUINT_MOD - 1) % GUINT_MOD = 0 then none
           else some { def_a with ref := (2 + GUINT_MOD - 1) % GUINT_MOD }) ∧
        s3.acts 0 = none) ∧
    ((1 : Nat) = 1 ∧ (none : Option Ptr) = none ∧ state_looked_up.trace = state_leaked.trace ∧
      ∃ t2 mid t3,
        (act_ref_times (2 - 1) 0 state_looked_up).bind (fun _ u => act_unref_times (2 - 1) 0 u)
          = Outcome.ret () t2 ∧
        actions_act_unref_call_state (some 0) t2 = Outcome.ret (some mid) t3 ∧
        actions_act_unref (some 0) t2 = Outcome.ret () t3 ∧
        mid.trace = state_looked_up.trace ++ [Event.free 11 none] ∧
        mid.defs = state_looked_up.defs ∧ t3.trace = mid.trace ∧
        t3.defs = Function.update state_looked_up.defs 0
          (if (2 + GUINT_MOD - 1) % GUINT_MOD = 0 then none
           else some { def_a with ref := (2 + GUINT_MOD - 1) % GUINT_MOD }) ∧
        t3.acts 0 = none) :=
  ⟨state_parsed_from_leaked, rfl, rfl, rfl, state_looked_up_from_leaked, rfl, rfl, by decide,
    by norm_num,
    C15_free_gets_setup_value setup_const (some 0) (some 0) 1 2 node_A ['A'] 0 0 state_leaked
      state_parsed state_leaked state_looked_up { ref := 1, defn := 0, options := some 40 }
      { ref := 1, defn := 0, options := none } { def_a with ref := 2 } { def_a with ref := 2 }
      11 11 2 state_parsed_from_leaked rfl rfl rfl state_looked_up_from_leaked rfl rfl rfl
      (by decide) (by norm_num)⟩

end Openbox
